import Mathlib

/-!
# Verification of the cement-bond analysis core (Analisis-de-Cemento-WEB)

Shallow embedding of the repository's analysis core:
* `src/services/lasParser.ts`   — `parseLasFile`
* `src/services/analysisService.ts` — `interpolate`, `analyzeData` and its
  helper `calcularAdherenciaIntervalo`

The embedding models JavaScript numeric values by rationals plus an explicit
`NaN` (`JNum`), and a missing object property (`undefined`) by `Option`.
JS comparisons involving `NaN`/`undefined` are `false`; arithmetic on them
yields `NaN`.  Division by zero is modelled as `NaN` (JS would give ±∞ for a
nonzero numerator; no claim depends on that case, and every use in the code is
guarded by a positivity test).  `parseFloat` is modelled for finite decimal
literals with optional exponent (the literal `Infinity` is not modelled and
parses to `NaN`).

The repository's `src/constants.ts` is not part of the source snapshot; the
tunable constants it exports are therefore a parameter (`Consts`) of the
embedding, exactly as the spec requires them to be configurable.
-/

/- The Batteries `Rat` arithmetic operations are `@[irreducible]`, which
blocks `decide`/`rfl` evaluation of the executable model on concrete inputs.
Restoring the default reducibility lets the kernel compute with rationals. -/
set_option allowUnsafeReducibility true
attribute [semireducible] Rat.add Rat.mul Rat.inv Rat.sub Rat.div Rat.ofScientific

/-- A JavaScript number: either `NaN` or a (finite) numeric value,
modelled as a rational. -/
inductive JNum where
  | nan : JNum
  | num : ℚ → JNum
deriving DecidableEq, Repr

namespace JNum

/-- JS addition (`NaN` propagates). -/
def add : JNum → JNum → JNum
  | num a, num b => num (a + b)
  | _, _ => nan

/-- JS subtraction (`NaN` propagates). -/
def sub : JNum → JNum → JNum
  | num a, num b => num (a - b)
  | _, _ => nan

/-- JS multiplication (`NaN` propagates). -/
def mul : JNum → JNum → JNum
  | num a, num b => num (a * b)
  | _, _ => nan

/-- JS division.  `NaN` propagates; division by zero is modelled as `NaN`
(JS yields ±∞ for a nonzero numerator over zero; every division in the
embedded code is either guarded by a positivity test on the denominator or
feeds a `NaN`-absorbing clip, so the distinction is never observable in the
properties proved here). -/
def div : JNum → JNum → JNum
  | num a, num b => if b = 0 then nan else num (a / b)
  | _, _ => nan

/-- `Math.abs` (of a possibly-`NaN` value). -/
def abs : JNum → JNum
  | num a => num |a|
  | nan => nan

/-- `Math.min` (returns `NaN` if either argument is `NaN`). -/
def min : JNum → JNum → JNum
  | num a, num b => num (Min.min a b)
  | _, _ => nan

/-- `Math.max` (returns `NaN` if either argument is `NaN`). -/
def max : JNum → JNum → JNum
  | num a, num b => num (Max.max a b)
  | _, _ => nan

/-- JS `x > c` against a plain rational (false on `NaN`). -/
def gtQ : JNum → ℚ → Bool
  | num a, c => a > c
  | nan, _ => false

/-- JS `x >= c` against a plain rational (false on `NaN`). -/
def geQ : JNum → ℚ → Bool
  | num a, c => a ≥ c
  | nan, _ => false

/-- JS `x < c` against a plain rational (false on `NaN`). -/
def ltQ : JNum → ℚ → Bool
  | num a, c => a < c
  | nan, _ => false

/-- JS `x <= c` against a plain rational (false on `NaN`). -/
def leQ : JNum → ℚ → Bool
  | num a, c => a ≤ c
  | nan, _ => false

/-- `isNaN`. -/
def isNaN : JNum → Bool
  | nan => true
  | num _ => false

/-- The value is a (strictly) positive number. -/
def isPos : JNum → Prop
  | nan => False
  | num a => 0 < a

/-- The value is a nonnegative number, or `NaN`. -/
def nonnegOrNaN : JNum → Prop
  | nan => True
  | num a => 0 ≤ a

end JNum

/-- A possibly missing JS number (a record field that may be `undefined`). -/
abbrev JVal := Option JNum

/-- Coerce a possibly-missing value into arithmetic, as JS does
(`undefined` behaves as `NaN` in arithmetic). -/
def jnumOf : JVal → JNum
  | none => JNum.nan
  | some v => v

/-- JS `x != null && !isNaN(x)`: the value is present and numeric. -/
def jsValid : JVal → Bool
  | some (JNum.num _) => true
  | _ => false

/-- JS `x > c` where `x` may be `undefined` (false on `undefined`/`NaN`). -/
def jgtQ (x : JVal) (c : ℚ) : Bool := (jnumOf x).gtQ c

/-- JS `x >= c` where `x` may be `undefined`. -/
def jgeQ (x : JVal) (c : ℚ) : Bool := (jnumOf x).geQ c

/-- JS `x < c` where `x` may be `undefined`. -/
def jltQ (x : JVal) (c : ℚ) : Bool := (jnumOf x).ltQ c

/-- JS `x <= c` where `x` may be `undefined`. -/
def jleQ (x : JVal) (c : ℚ) : Bool := (jnumOf x).leQ c

/-- Bond-quality category, the values of the `Category` property
(`'Malo' | 'Medio' | 'Bueno'`). -/
inductive Cat where
  | Malo : Cat
  | Medio : Cat
  | Bueno : Cat
deriving DecidableEq, Repr

/-- Association-list lookup for record properties (first binding wins). -/
def lookupVal : List (String × JNum) → String → JVal
  | [], _ => none
  | p :: ps, k => if p.1 = k then some p.2 else lookupVal ps k

/-- Association-list property assignment (replace the binding if the key is
present, else append it). -/
def setValList : List (String × JNum) → String → JNum → List (String × JNum)
  | [], k, v => [(k, v)]
  | p :: ps, k, v => if p.1 = k then (k, v) :: ps else p :: setValList ps k v

/-- A depth-indexed log record: a JS object mapping curve names to numbers,
plus the optional `Category` property attached by the classifier. -/
structure Rec where
  vals : List (String × JNum)
  category : Option Cat := none
deriving DecidableEq, Repr

instance : Inhabited Rec := ⟨⟨[], none⟩⟩

/-- Read a property (`undefined` when absent). -/
def Rec.get (r : Rec) (k : String) : JVal := lookupVal r.vals k

/-- Write a numeric property in place. -/
def Rec.setVal (r : Rec) (k : String) (v : JNum) : Rec :=
  { r with vals := setValList r.vals k v }

/-- The depth of a record as a rational (0 when missing/`NaN`; every record
reaching this accessor has passed the `depth > 0` filter, so the default is
never observed). -/
def depthQ (dc : String) (r : Rec) : ℚ :=
  match r.get dc with
  | some (JNum.num q) => q
  | _ => 0

example : JNum.div (JNum.num 1) (JNum.num 2) = JNum.num (1/2) := by decide
example : jgeQ none 0 = false := by decide
example : jgeQ (some JNum.nan) 0 = false := by decide

/-! ## The log parser (`src/services/lasParser.ts`, `parseLasFile`) -/

/-- JS whitespace (`\s`, restricted to the ASCII space characters that can
occur in a line of the input). -/
def isWsChar (c : Char) : Bool :=
  c = ' ' ∨ c = '\t' ∨ c = '\n' ∨ c = '\r' ∨ c = '\x0b' ∨ c = '\x0c'

/-- `String.prototype.trim`. -/
def trimChars (cs : List Char) : List Char :=
  ((cs.dropWhile isWsChar).reverse.dropWhile isWsChar).reverse

/-- Split at every `'\n'` (keeping empty pieces), accumulator-style. -/
def splitNlAux : List Char → List Char → List (List Char)
  | [], acc => [acc.reverse]
  | c :: cs, acc =>
      if c = '\n' then acc.reverse :: splitNlAux cs [] else splitNlAux cs (c :: acc)

/-- Remove one trailing `'\r'` (the `\r?` of the `split(/\r?\n/)` separator). -/
def stripCR (cs : List Char) : List Char :=
  if cs.getLast? = some '\r' then cs.dropLast else cs

/-- `fileContent.split(/\r?\n/)`. -/
def splitLines (s : String) : List (List Char) :=
  (splitNlAux s.data []).map stripCR

/-- Split on runs of whitespace into (nonempty) tokens:
`line.split(/\s+/).filter(v => v)`. -/
def splitWsAux : List Char → List Char → List (List Char)
  | [], acc => if acc = [] then [] else [acc.reverse]
  | c :: cs, acc =>
      if isWsChar c then
        if acc = [] then splitWsAux cs [] else acc.reverse :: splitWsAux cs []
      else splitWsAux cs (c :: acc)

/-- All maximal non-whitespace tokens of a line. -/
def splitWsTokens (cs : List Char) : List (List Char) := splitWsAux cs []

/-- The numeric value of a digit string. -/
def digitsToNat (cs : List Char) : Nat :=
  cs.foldl (fun n c => 10 * n + (c.toNat - '0'.toNat)) 0

/-- JS `parseFloat` on a whitespace-free token: optional sign, decimal
mantissa (at least one digit), optional exponent; `NaN` when no numeric
prefix exists.  (The literal `Infinity` is not modelled and yields `NaN`;
see the header comment.) -/
def parseFloatChars (cs : List Char) : JNum :=
  let sr : ℚ × List Char :=
    match cs with
    | '+' :: rest => (1, rest)
    | '-' :: rest => (-1, rest)
    | _ => (1, cs)
  let d1 := sr.2.takeWhile Char.isDigit
  let r2 := sr.2.dropWhile Char.isDigit
  let dr : List Char × List Char :=
    match r2 with
    | '.' :: rest => (rest.takeWhile Char.isDigit, rest.dropWhile Char.isDigit)
    | _ => ([], r2)
  if d1 = [] ∧ dr.1 = [] then JNum.nan
  else
    let mant : ℚ := (digitsToNat d1 : ℚ) + (digitsToNat dr.1 : ℚ) / ((10 : ℚ) ^ dr.1.length)
    let e : ℤ :=
      match dr.2 with
      | c :: rest =>
        if c = 'e' ∨ c = 'E' then
          let er : ℤ × List Char :=
            match rest with
            | '+' :: rr => (1, rr)
            | '-' :: rr => (-1, rr)
            | _ => (1, rest)
          let ed := er.2.takeWhile Char.isDigit
          if ed = [] then 0 else er.1 * (digitsToNat ed : ℤ)
        else 0
      | [] => 0
    JNum.num (sr.1 * mant * (10 : ℚ) ^ e)

/-- Drop a case-insensitive keyword prefix (pattern given in upper case),
returning the rest of the characters on success. -/
def ciPrefixDrop : List Char → List Char → Option (List Char)
  | [], cs => some cs
  | _ :: _, [] => none
  | p :: ps, c :: cs => if c.toUpper = p then ciPrefixDrop ps cs else none

/-- The characters after the last `':'`, if any. -/
def afterLastColon : List Char → Option (List Char)
  | [] => none
  | c :: rest =>
    match afterLastColon rest with
    | some r => some r
    | none => if c = ':' then some rest else none

/-- The maximal prefix matching the capture group `-?\d*\.?\d*` (greedy in
each part; may be empty). -/
def takeNumShape (cs : List Char) : List Char :=
  let sr : List Char × List Char :=
    match cs with
    | '-' :: rest => (['-'], rest)
    | _ => ([], cs)
  let d1 := sr.2.takeWhile Char.isDigit
  let r2 := sr.2.dropWhile Char.isDigit
  let dr : List Char × List Char :=
    match r2 with
    | '.' :: rest => (['.'], rest)
    | _ => ([], r2)
  sr.1 ++ d1 ++ dr.1 ++ dr.2.takeWhile Char.isDigit

/-- The capture of `/^WELL\s*\.\s*(.*?)\s*:/i` on a trimmed line: after the
keyword, optional whitespace and a dot, the lazy capture extends to the
first `':'`, minus the whitespace run immediately before it. -/
def wellMatchCapture (cs : List Char) : Option (List Char) :=
  match ciPrefixDrop "WELL".data cs with
  | none => none
  | some r1 =>
    match r1.dropWhile isWsChar with
    | '.' :: r3 =>
      let r4 := r3.dropWhile isWsChar
      if r4.contains ':' then
        some (((r4.takeWhile (· ≠ ':')).reverse.dropWhile isWsChar).reverse)
      else none
    | _ => none

/-- The capture of `/^STEP\.?\s+.*\s*:\s*(-?\d*\.?\d*)/i` on a trimmed line:
after the keyword, an optional dot and mandatory whitespace, the greedy `.*`
places the `':'` at the last colon of the line; the capture is the maximal
number-shaped prefix after it (and the match only counts when the capture is
nonempty, because the code tests `stepMatch[1]`). -/
def stepMatchCapture (cs : List Char) : Option (List Char) :=
  match ciPrefixDrop "STEP".data cs with
  | none => none
  | some r1 =>
    let r2 :=
      match r1 with
      | '.' :: c :: rest => if isWsChar c then c :: rest else r1
      | _ => r1
    match r2 with
    | c :: _ =>
      if isWsChar c then
        match afterLastColon (r2.dropWhile isWsChar) with
        | some tail =>
          let cap := takeNumShape (tail.dropWhile isWsChar)
          if cap = [] then none else some cap
        | none => none
      else none
    | [] => none

/-- The section letters the parser recognises (`~W`, `~P`, `~C`, `~A`). -/
inductive Sect where
  | W : Sect
  | P : Sect
  | C : Sect
  | A : Sect
deriving DecidableEq, Repr

/-- The single pass's mutable state: well name, step, declared curves,
data records, and the current section. -/
structure PassState where
  wellName : String
  step : Option JNum
  curves : List String
  data : List Rec
  sect : Option Sect
deriving Repr

/-- Initial pass state (`"Pozo Desconocido"`, no step, no curves, no data,
no current section). -/
def initPassState : PassState :=
  { wellName := "Pozo Desconocido", step := none, curves := [], data := [], sect := none }

/-- Process one raw line of the file (lasParser.ts lines 13–64). -/
def processLine (st : PassState) (rawLine : List Char) : PassState :=
  let t := trimChars rawLine
  if t = [] ∨ t.head? = some '#' then st
  else
    match t with
    | '~' :: rest =>
      (match rest.dropWhile isWsChar with
       | c :: _ =>
         if c.isAlpha then
           if c.toUpper = 'W' then { st with sect := some Sect.W }
           else if c.toUpper = 'P' then { st with sect := some Sect.P }
           else if c.toUpper = 'C' then { st with sect := some Sect.C }
           else if c.toUpper = 'A' then { st with sect := some Sect.A }
           else { st with sect := none }
         else st
       | [] => st)
    | _ =>
      match st.sect with
      | some Sect.W =>
        let st1 :=
          match wellMatchCapture t with
          | some cap =>
            if cap ≠ [] ∧ trimChars cap ≠ [] then { st with wellName := String.mk (trimChars cap) }
            else st
          | none => st
        (match stepMatchCapture t with
         | some cap => { st1 with step := some (parseFloatChars cap) }
         | none => st1)
      | some Sect.C =>
        let mnemonic := (trimChars (t.takeWhile (· ≠ '.'))).takeWhile (fun c => ¬ isWsChar c)
        if mnemonic ≠ [] then { st with curves := st.curves ++ [String.mk mnemonic] } else st
      | some Sect.A =>
        let values := (splitWsTokens t).map parseFloatChars
        if values.length > 0 ∧ values.length = st.curves.length then
          let record := (st.curves.zip values).foldl (fun r p => r.setVal p.1 p.2) ⟨[], none⟩
          { st with data := st.data ++ [record] }
        else st
      | some Sect.P => st
      | none => st

/-- The whole single left-to-right pass over the file's lines. -/
def parsePass (lines : List (List Char)) : PassState :=
  lines.foldl processLine initPassState

/-- First-seen-order deduplication (`Array.from(new Set(curves))`). -/
def dedupFirst (l : List String) : List String :=
  l.foldl (fun acc c => if acc.contains c then acc else acc ++ [c]) []

/-- The parser's output structure (`LasData` in types.ts). -/
structure LasData where
  wellName : String
  step : JNum
  curves : List String
  data : List Rec
  depthCurveName : String
deriving DecidableEq, Repr

/-- Line 70: `curves.length > 0 ? curves[0] : 'DEPT'`. -/
def depthCurveOf (st : PassState) : String :=
  match st.curves with | c :: _ => c | [] => "DEPT"

/-- Lines 72–79: the step found in the header, else the absolute difference
of the first two depths, else the constant `0.1524`. -/
def stepBeforeAbs (st : PassState) : Option JNum :=
  match st.step with
  | some s => some s
  | none =>
    match st.data with
    | d0 :: d1 :: _ =>
      (match d0.get (depthCurveOf st), d1.get (depthCurveOf st) with
       | some a, some b => some (JNum.abs (JNum.sub b a))
       | _, _ => none)
    | _ => none

/-- Line 85: the final step, always the absolute value of whatever was
determined. -/
def stepOf (st : PassState) : JNum :=
  (match stepBeforeAbs st with | some s => s | none => JNum.num 0.1524).abs

/-- `parseLasFile` (lasParser.ts): run the pass, validate, determine the
depth curve and the step, and assemble the dataset. -/
def parseLasFile (fileContent : String) : Except String LasData :=
  if (parsePass (splitLines fileContent)).curves = [] ∨ (parsePass (splitLines fileContent)).data = [] then
    Except.error "Invalid LAS file format: Could not find curve definitions in ~C section or data in ~A section."
  else
    Except.ok
      { wellName := (parsePass (splitLines fileContent)).wellName
        step := stepOf (parsePass (splitLines fileContent))
        curves := dedupFirst (parsePass (splitLines fileContent)).curves
        data := (parsePass (splitLines fileContent)).data
        depthCurveName := depthCurveOf (parsePass (splitLines fileContent)) }

/-! ## The analysis engine (`src/services/analysisService.ts`) -/

/-- The tunable constants exported by `src/constants.ts` (imported as `C`).
That module is not part of the source snapshot, and the spec (§6) requires
these to be configuration rather than hardwired values, so the embedding
takes them as a parameter. -/
structure Consts where
  NOMBRES_CURVA_CBL : List String
  UMBRAL_AMPLITUD_BUENA_MV : ℚ
  UMBRAL_AMPLITUD_MALA_MV : ℚ
  TOC_AMPLITUD_UMBRAL : ℚ
  TOC_LONGITUD_MINIMA_M : ℚ
  INTERVALO_LONGITUD_MINIMA_FT : ℚ
  RANGO_SELLO_METROS : ℚ
deriving DecidableEq, Repr

/-- Modelled from the spec: concrete values for the missing
`src/constants.ts`.  The spec (§6) names an ordered amplitude-curve
candidate list, low/high bond thresholds, a TOC threshold and minimum run
length, a minimum reportable interval length in feet, and a seal-window
padding distance, without fixing their numeric values; this instance
supplies representative values for concrete witnesses (`CBL` is the
bond-amplitude curve name of the spec's glossary).  Every universal theorem
below is proved for arbitrary `Consts`. -/
def defaultConsts : Consts :=
  { NOMBRES_CURVA_CBL := ["CBL"]
    UMBRAL_AMPLITUD_BUENA_MV := 2
    UMBRAL_AMPLITUD_MALA_MV := 10
    TOC_AMPLITUD_UMBRAL := 10
    TOC_LONGITUD_MINIMA_M := 2
    INTERVALO_LONGITUD_MINIMA_FT := 3
    RANGO_SELLO_METROS := 5 }

/-- A geological layer boundary (`LayerData` in types.ts). -/
structure LayerData where
  wellName : String
  top : ℚ
  base : ℚ
deriving DecidableEq, Repr

/-- The flat KPI map (`Kpi` in types.ts).  Fields that the code assigns
conditionally are `Option`s. -/
structure Kpi where
  TOC_Encontrado : ℚ
  Total_Meters : JNum
  Good_Meters : JNum
  Medium_Meters : JNum
  Bad_Meters : JNum
  Good_Bond_Percentage : JNum
  TOC_Solicitado : ℚ
  Altura_Anillo_Solicitado : ℚ
  Diferencia_TOC : Option ℚ := none
  TOC_Evaluacion_T : Option ℚ := none
  Adherencia_A : Option JNum := none
  Cement_Score : Option JNum := none
  Apnz_Percentage : Option ℚ := none
  Asello_Percentage : Option ℚ := none
deriving DecidableEq, Repr

/-- A reported quality interval (`QualityInterval` in types.ts; the fields
`Calidad`, `Tope (m)`, `Base (m)`, `Longitud (m)`).  At runtime `Calidad`
is whatever `Category` string the record carried, hence `Option Cat`
here. -/
structure QualityInterval where
  Calidad : Option Cat
  tope : ℚ
  base : ℚ
  longitud : ℚ
deriving DecidableEq, Repr

/-- A per-layer analysis row (`LayerAnalysisItem` in types.ts; the fields
`Pozo`, `Capa`, `Tope (m)`, `Base (m)`, `Longitud (m)`, `Adherencia (%)`,
`Adherencia Sello (%)`). -/
structure LayerAnalysisItem where
  Pozo : String
  Capa : String
  tope : ℚ
  base : ℚ
  longitud : JNum
  adherencia : JNum
  adherenciaSello : JNum
deriving DecidableEq, Repr

/-- The analysis output (`AnalysisResult` in types.ts). -/
structure AnalysisResult where
  wellName : String
  kpis : Kpi
  cementedData : List Rec
  logData : List Rec
  cblCurve : String
  intervals : List QualityInterval
  layerAnalysis : List LayerAnalysisItem
  depthCurveName : String
  step : JNum
deriving DecidableEq, Repr

/-- The strict initial filter (analysisService.ts lines 38–41):
`d[depthCurve] > 0 && (d[cblCurve] === undefined || d[cblCurve] >= 0)`. -/
def validRecord (dc cbl : String) (d : Rec) : Bool :=
  jgtQ (d.get dc) 0 && ((d.get cbl).isNone || jgeQ (d.get cbl) 0)

/-- Write through one array cell: `arr[i] = f(arr[i])` (identity when `i`
is out of range, which never happens in the embedded loops). -/
def updAt (arr : List Rec) (i : Nat) (f : Rec → Rec) : List Rec :=
  arr.set i (f (arr.getD i default))

/-- The inner gap-filling writes of `interpolate` (lines 10–16): for
`j = 1 .. steps-1`, `data[lastGood+j][key] = startVal + diff*j/steps`. -/
def interpGap (arr : List Rec) (key : String) (lg i : Nat) : List Rec :=
  let sv := jnumOf ((arr.getD lg default).get key)
  let ev := jnumOf ((arr.getD i default).get key)
  let diff := JNum.sub ev sv
  let steps := i - lg
  (List.range' 1 (steps - 1)).foldl
    (fun a j => updAt a (lg + j) (fun r =>
      r.setVal key (JNum.add sv (JNum.div (JNum.mul diff (JNum.num (j : ℚ))) (JNum.num (steps : ℚ)))))) arr

/-- `interpolate(data, key)` (lines 5–21): single forward pass tracking the
last index with a valid value; on meeting a valid value after a gap of more
than one index, linearly fill the intermediate cells. -/
def interpolateKey (data : List Rec) (key : String) : List Rec :=
  ((List.range data.length).foldl
    (fun (st : Option Nat × List Rec) i =>
      if jsValid ((st.2.getD i default).get key) then
        match st.1 with
        | some lg => if 1 < i - lg then (some i, interpGap st.2 key lg i) else (some i, st.2)
        | none => (some i, st.2)
      else st)
    (none, data)).2

/-- Lines 103–108: interpolate the amplitude curve and the auxiliary
curves `CLDC` and `NEU`, each only when present in the dataset. -/
def interpolateAll (cbl : String) (curves : List String) (recs : List Rec) : List Rec :=
  [cbl, "CLDC", "NEU"].foldl
    (fun acc key => if curves.contains key then interpolateKey acc key else acc) recs

/-- The classifier branch (lines 112–115) on the amplitude value. -/
def classify (consts : Consts) (amp : JVal) : Cat :=
  if jgeQ amp consts.UMBRAL_AMPLITUD_MALA_MV then Cat.Malo
  else if jgtQ amp consts.UMBRAL_AMPLITUD_BUENA_MV && jltQ amp consts.UMBRAL_AMPLITUD_MALA_MV then Cat.Medio
  else Cat.Bueno

/-- Lines 111–116: attach a `Category` to every cemented record. -/
def categorizeList (consts : Consts) (cbl : String) (recs : List Rec) : List Rec :=
  recs.map (fun d => { d with category := some (classify consts (d.get cbl)) })

/-- The block-collection loop of TOC detection (lines 55–68), carried out
over the boolean below-threshold sequence with the absolute index and the
pending `currentBlockStart` as state; the final flush included. -/
def blocksAux : Nat → List Bool → Option Nat → List (Nat × Nat)
  | _, [], none => []
  | i, [], some c => [(c, i - 1)]
  | i, b :: rest, none =>
      if b then blocksAux (i + 1) rest (some i) else blocksAux (i + 1) rest none
  | i, b :: rest, some c =>
      if b then blocksAux (i + 1) rest (some c) else (c, i - 1) :: blocksAux (i + 1) rest none

/-- All maximal `true`-runs of the sequence, as `(start, end)` index pairs. -/
def findBlocks (bs : List Bool) : List (Nat × Nat) := blocksAux 0 bs none

/-- The gradient-fallback loop (lines 76–84): the index of the first
occurrence of the minimal consecutive difference (`minGradient` starts at
`Infinity`, modelled by `none`). -/
def minGradIdx (amps : List ℚ) : Option Nat :=
  ((List.range' 1 (amps.length - 1)).foldl
    (fun (st : Option ℚ × Option Nat) i =>
      let g := amps.getD i 0 - amps.getD (i - 1) 0
      match st.1 with
      | none => (some g, some i)
      | some m => if g < m then (some g, some i) else st)
    (none, none)).2

/-- The amplitude of a record as a rational (0 when missing/`NaN`; the
gradient loop only reads records of `tocData`, which are `jsValid` for the
amplitude curve, so the default is never observed). -/
def ampQ (cbl : String) (r : Rec) : ℚ :=
  match r.get cbl with
  | some (JNum.num q) => q
  | _ => 0

/-- Line 50: the subsequence of records with a valid (non-null, non-NaN)
amplitude value. -/
def tocDataOf (cbl : String) (recs : List Rec) : List Rec :=
  recs.filter (fun d => jsValid (d.get cbl))

/-- Line 54: the boolean below-threshold sequence over `tocData`. -/
def meetsOf (consts : Consts) (cbl : String) (recs : List Rec) : List Bool :=
  (tocDataOf cbl recs).map (fun d => jltQ (d.get cbl) consts.TOC_AMPLITUD_UMBRAL)

/-- Line 70: the depth span of a block, `tocData[end][depth] − tocData[start][depth]`. -/
def blockSpan (dc cbl : String) (recs : List Rec) (b : Nat × Nat) : ℚ :=
  depthQ dc ((tocDataOf cbl recs).getD b.2 default) -
    depthQ dc ((tocDataOf cbl recs).getD b.1 default)

/-- TOC detection (lines 49–89) over the depth-sorted filtered records.
Depth values are read as rationals: every record reaching this stage has
passed the strict `depth > 0` filter, so its depth is numeric. -/
def detectTOC (consts : Consts) (dc cbl : String) (recs : List Rec) : ℚ :=
  let tocData := tocDataOf cbl recs
  let dflt : ℚ := match recs with | [] => 0 | d :: _ => depthQ dc d
  if tocData = [] then dflt
  else
    let blocks := findBlocks (meetsOf consts cbl recs)
    let validBlocks := blocks.filter (fun b =>
      consts.TOC_LONGITUD_MINIMA_M ≤ blockSpan dc cbl recs b)
    match validBlocks with
    | b :: _ => depthQ dc (tocData.getD b.1 default)
    | [] =>
      match minGradIdx (tocData.map (ampQ cbl)) with
      | some i => depthQ dc (tocData.getD i default)
      | none => dflt

/-- The restriction of the cemented records to a depth window
(`d[depthCurve] >= top && d[depthCurve] <= base`, lines 179/188). -/
def capaWindow (dc : String) (cem : List Rec) (top base : ℚ) : List Rec :=
  cem.filter (fun d => jgeQ (d.get dc) top && jleQ (d.get dc) base)

/-- `calcularAdherenciaIntervalo` (lines 162–170): adhesion and length of a
window; `(NaN, 0)` on the empty window. -/
def calcularAdherenciaIntervalo (dc : String) (step : JNum) (df : List Rec) : JNum × JNum :=
  match df with
  | [] => (JNum.nan, JNum.num 0)
  | d0 :: _ =>
    let malos := JNum.mul (JNum.num ((df.filter (fun d => d.category = some Cat.Malo)).length : ℚ)) step
    let medios := JNum.mul (JNum.num ((df.filter (fun d => d.category = some Cat.Medio)).length : ℚ)) step
    let longitud := JNum.add (JNum.sub (jnumOf ((df.getLastD default).get dc)) (jnumOf (d0.get dc))) step
    let M := JNum.add malos medios
    let A_val := JNum.sub (JNum.num 1) (JNum.div M longitud)
    (JNum.max (JNum.num 0) (JNum.min (JNum.num 1) A_val), longitud)

/-- The four running sums of the layer/seal aggregation (lines 173–174). -/
structure AggState where
  total_M_capas : ℚ
  total_length_capas : ℚ
  total_M_sellos : ℚ
  total_length_sellos : ℚ
deriving DecidableEq, Repr

/-- One guarded accumulation (`if (!isNaN(A) && longitud > 0)`) of
`(1 - A) * longitud` and `longitud` onto a pair of sums. -/
def adhAccum (st : ℚ × ℚ) (al : JNum × JNum) : ℚ × ℚ :=
  match al with
  | (JNum.num a, JNum.num l) => if 0 < l then (st.1 + (1 - a) * l, st.2 + l) else st
  | _ => st

/-- The seal window bounds (lines 186–187): pad by the margin, clamped to
the cemented-zone extent. -/
def sealBounds (consts : Consts) (minD maxD : ℚ) (capa : LayerData) : ℚ × ℚ :=
  (Max.max (capa.top - consts.RANGO_SELLO_METROS) minD,
   Min.min (capa.base + consts.RANGO_SELLO_METROS) maxD)

/-- One iteration of the aggregation loop over the layers (lines 178–194). -/
def aggFoldStep (consts : Consts) (dc : String) (step : JNum) (cem : List Rec)
    (minD maxD : ℚ) (st : AggState) (capa : LayerData) : AggState :=
  let alCapa := calcularAdherenciaIntervalo dc step (capaWindow dc cem capa.top capa.base)
  let c2 := adhAccum (st.total_M_capas, st.total_length_capas) alCapa
  let sb := sealBounds consts minD maxD capa
  let alSello := calcularAdherenciaIntervalo dc step (capaWindow dc cem sb.1 sb.2)
  let s2 := adhAccum (st.total_M_sellos, st.total_length_sellos) alSello
  { total_M_capas := c2.1, total_length_capas := c2.2
    total_M_sellos := s2.1, total_length_sellos := s2.2 }

/-- `Apnz` (lines 196–197): defined only when the aggregate denominator is
positive, then clipped to `[0, 100]`. -/
def apnzOf (st : AggState) : Option ℚ :=
  if 0 < st.total_length_capas then
    some (Max.max 0 (Min.min 100 ((1 - st.total_M_capas / st.total_length_capas) * 100)))
  else none

/-- `Asello` (lines 199–200), identically over the seal sums. -/
def aselloOf (st : AggState) : Option ℚ :=
  if 0 < st.total_length_sellos then
    some (Max.max 0 (Min.min 100 ((1 - st.total_M_sellos / st.total_length_sellos) * 100)))
  else none

/-- One row of the layer analysis table (lines 242–262). -/
def layerItem (consts : Consts) (dc : String) (step : JNum) (wellName : String)
    (cem : List Rec) (minD maxD : ℚ) (capa : LayerData) : LayerAnalysisItem :=
  let alCapa := calcularAdherenciaIntervalo dc step (capaWindow dc cem capa.top capa.base)
  let sb := sealBounds consts minD maxD capa
  let alSello := calcularAdherenciaIntervalo dc step (capaWindow dc cem sb.1 sb.2)
  { Pozo := wellName
    Capa := capa.wellName
    tope := capa.top
    base := capa.base
    longitud := alCapa.2
    adherencia := if alCapa.1.isNaN then JNum.nan else JNum.mul alCapa.1 (JNum.num 100)
    adherenciaSello := if alSello.1.isNaN then JNum.nan else JNum.mul alSello.1 (JNum.num 100) }

/-- The KPI computation (lines 119–160): per-category meters, good-bond
percentage, and — when both requested inputs are positive — the TOC
difference, the T evaluation, the clipped A score and the composite
score. -/
def computeKpis (step : JNum) (tocDepth : ℚ) (cem : List Rec)
    (tocSolicitado alturaAnilloSolicitado : ℚ) : Kpi :=
  let metrosBuenos :=
    JNum.mul (JNum.num ((cem.filter (fun d => d.category = some Cat.Bueno)).length : ℚ)) step
  let metrosMedios :=
    JNum.mul (JNum.num ((cem.filter (fun d => d.category = some Cat.Medio)).length : ℚ)) step
  let metrosMalos :=
    JNum.mul (JNum.num ((cem.filter (fun d => d.category = some Cat.Malo)).length : ℚ)) step
  let metrosTotales := JNum.add (JNum.add metrosBuenos metrosMedios) metrosMalos
  let base : Kpi :=
    { TOC_Encontrado := tocDepth
      Total_Meters := metrosTotales
      Good_Meters := metrosBuenos
      Medium_Meters := metrosMedios
      Bad_Meters := metrosMalos
      Good_Bond_Percentage :=
        if metrosTotales.gtQ 0 then JNum.mul (JNum.div metrosBuenos metrosTotales) (JNum.num 100)
        else JNum.num 0
      TOC_Solicitado := tocSolicitado
      Altura_Anillo_Solicitado := alturaAnilloSolicitado }
  if 0 < tocSolicitado ∧ 0 < alturaAnilloSolicitado then
    let diferenciaToc := tocSolicitado - tocDepth
    let T : Option ℚ :=
      if 0 ≤ diferenciaToc ∧ diferenciaToc ≤ 40 then some 1
      else if 40 < diferenciaToc then some 0.9
      else if diferenciaToc < 0 ∧ (-40) ≤ diferenciaToc then some 0.8
      else if diferenciaToc < (-40) then some 0
      else none
    let M := JNum.add metrosMalos metrosMedios
    let A := JNum.max (JNum.num 0) (JNum.min (JNum.num 1)
      (JNum.sub (JNum.num 1) (JNum.div M (JNum.num alturaAnilloSolicitado))))
    let cement : Option JNum :=
      match T with
      | some t =>
        some (JNum.max (JNum.num 0) (JNum.min (JNum.num 100)
          (JNum.add (JNum.num (30 * t)) (JNum.mul (JNum.num 70) A))))
      | none => none
    { base with
      Diferencia_TOC := some (tocDepth - tocSolicitado)
      TOC_Evaluacion_T := T.map (fun t => t * 100)
      Adherencia_A := some (JNum.mul A (JNum.num 100))
      Cement_Score := cement }
  else base

/-- An unfiltered segmentation interval (lines 211–224): category, top
depth, base depth of a maximal same-category run. -/
structure RawInterval where
  Category : Option Cat
  Top : ℚ
  Base : ℚ
deriving DecidableEq, Repr

/-- The segmentation loop body (lines 209–224), carrying the current run's
category, its starting depth and the previous record. -/
def intervalsGo (dc : String) : List Rec → Option Cat → ℚ → Rec → List RawInterval
  | [], cat, start, prev => [{ Category := cat, Top := start, Base := depthQ dc prev }]
  | d :: rest, cat, start, prev =>
    if d.category ≠ cat then
      { Category := cat, Top := start, Base := depthQ dc prev } ::
        intervalsGo dc rest d.category (depthQ dc d) d
    else intervalsGo dc rest cat start d

/-- All maximal same-category runs of the cemented records, in order. -/
def buildIntervals (dc : String) (cem : List Rec) : List RawInterval :=
  match cem with
  | [] => []
  | d0 :: rest => intervalsGo dc rest d0.category (depthQ dc d0) d0

/-- Lines 227–236: attach lengths, keep only long-enough `Malo`/`Medio`
intervals, and shape the report rows. -/
def qualityIntervals (consts : Consts) (dc : String) (cem : List Rec) : List QualityInterval :=
  let longitudMinimaM := consts.INTERVALO_LONGITUD_MINIMA_FT * 0.3048
  (((buildIntervals dc cem).map (fun i => (i, i.Base - i.Top))).filter
      (fun p => longitudMinimaM ≤ p.2 ∧ (p.1.Category = some Cat.Malo ∨ p.1.Category = some Cat.Medio))).map
    (fun p => { Calidad := p.1.Category, tope := p.1.Top, base := p.1.Base, longitud := p.2 })

/-- `Map.set` over depth keys (SameValueZero equality, under which `NaN`
equals `NaN` — matched by decidable equality on `JNum`). -/
def mapSet (m : List (JNum × Cat)) (k : JNum) (v : Cat) : List (JNum × Cat) :=
  match m with
  | [] => [(k, v)]
  | p :: ps => if p.1 = k then (k, v) :: ps else p :: mapSet ps k v

/-- `Map.get` over depth keys. -/
def mapGet (m : List (JNum × Cat)) (k : JNum) : Option Cat :=
  match m with
  | [] => none
  | p :: ps => if p.1 = k then some p.2 else mapGet ps k

/-- Lines 266–271: the depth → category map over the cemented records. -/
def buildCategoryMap (dc : String) (cem : List Rec) : List (JNum × Cat) :=
  cem.foldl
    (fun m d =>
      match d.get dc, d.category with
      | some k, some c => mapSet m k c
      | _, _ => m) []

/-- Lines 273–276: spread a category onto a log record when its depth is in
the map, else return the record unchanged (the same object). -/
def enrichRecord (cmap : List (JNum × Cat)) (dc : String) (d : Rec) : Rec :=
  match d.get dc with
  | none => d
  | some k =>
    match mapGet cmap k with
    | some c => { d with category := some c }
    | none => d

/-- Replay in-place mutations through shared references: every pair whose
index occurs in `ps` is replaced by its processed version.  This models
that `filter` copies the array but not the record objects, so writes to
`cementedData[i]` are visible through `logData` and `lasData.data`. -/
def applyMut (ps : List (Nat × Rec)) (pairs : List (Nat × Rec)) : List (Nat × Rec) :=
  pairs.map (fun q =>
    match ps.find? (fun p => p.1 == q.1) with
    | some p => (q.1, p.2)
    | none => q)

/-- The body of `analyzeData` after the two fatal checks, together with the
caller's record array as it stands after the call (second component). -/
def buildResult (consts : Consts) (lasData : LasData) (layersData : List LayerData)
    (tocSolicitado alturaAnilloSolicitado : ℚ) (cblCurve : String)
    (logPairs : List (Nat × Rec)) : AnalysisResult × List Rec :=
  let dc := lasData.depthCurveName
  let sortedPairs :=
    List.insertionSort (fun a b : Nat × Rec => depthQ dc a.2 ≤ depthQ dc b.2) logPairs
  let logRecs := sortedPairs.map Prod.snd
  let tocDepth := detectTOC consts dc cblCurve logRecs
  let cementedPairs := sortedPairs.filter (fun p => jgeQ (p.2.get dc) tocDepth)
  let cementedRecs := cementedPairs.map Prod.snd
  let processed := categorizeList consts cblCurve (interpolateAll cblCurve lasData.curves cementedRecs)
  let processedPairs := (cementedPairs.map Prod.fst).zip processed
  let step := lasData.step
  let kpis0 := computeKpis step tocDepth processed tocSolicitado alturaAnilloSolicitado
  let minD : ℚ := match processed with | [] => 0 | d :: _ => depthQ dc d
  let maxD : ℚ := depthQ dc (processed.getLastD default)
  let kpis :=
    if layersData ≠ [] ∧ processed ≠ [] then
      let agg := layersData.foldl (aggFoldStep consts dc step processed minD maxD) ⟨0, 0, 0, 0⟩
      { kpis0 with Apnz_Percentage := apnzOf agg, Asello_Percentage := aselloOf agg }
    else kpis0
  let layerAnalysis :=
    if layersData ≠ [] ∧ processed ≠ [] then
      layersData.map (layerItem consts dc step lasData.wellName processed minD maxD)
    else []
  let cmap := buildCategoryMap dc processed
  let mutatedSorted := applyMut processedPairs sortedPairs
  let enriched := (mutatedSorted.map Prod.snd).map (enrichRecord cmap dc)
  let callerStore := (applyMut processedPairs lasData.data.enum).map Prod.snd
  ({ wellName := lasData.wellName
     kpis := kpis
     cementedData := processed
     logData := enriched
     cblCurve := cblCurve
     intervals := qualityIntervals consts dc processed
     layerAnalysis := layerAnalysis
     depthCurveName := dc
     step := lasData.step }, callerStore)

/-- `analyzeData` with the caller's record array after the call: the two
fatal checks (no compatible curve, empty strict filter), then the body. -/
def analyzeCore (consts : Consts) (lasData : LasData) (layersData : List LayerData)
    (tocSolicitado alturaAnilloSolicitado : ℚ) : Except String (AnalysisResult × List Rec) :=
  match consts.NOMBRES_CURVA_CBL.find? (fun c => lasData.curves.contains c) with
  | none => Except.error "No compatible CBL curve found in the LAS file."
  | some cblCurve =>
    if lasData.data.enum.filter (fun p => validRecord lasData.depthCurveName cblCurve p.2) = [] then
      Except.error "No valid data found (Depth > 0 and Amplitude >= 0)."
    else
      Except.ok (buildResult consts lasData layersData tocSolicitado alturaAnilloSolicitado cblCurve
        (lasData.data.enum.filter (fun p => validRecord lasData.depthCurveName cblCurve p.2)))

/-- `analyzeData` (lines 23–289). -/
def analyzeData (consts : Consts) (lasData : LasData) (layersData : List LayerData)
    (tocSolicitado alturaAnilloSolicitado : ℚ) : Except String AnalysisResult :=
  (analyzeCore consts lasData layersData tocSolicitado alturaAnilloSolicitado).map Prod.fst

/-- The caller's record objects (`lasData.data`) as they stand after
`analyzeData` returns. -/
def analyzeCallerData (consts : Consts) (lasData : LasData) (layersData : List LayerData)
    (tocSolicitado alturaAnilloSolicitado : ℚ) : Except String (List Rec) :=
  (analyzeCore consts lasData layersData tocSolicitado alturaAnilloSolicitado).map Prod.snd

/-! ## Specification-side predicates (for stating the claims) -/

/-- `(s, e)` is a maximal contiguous run of `true` in the boolean sequence:
every position in `[s, e]` holds, and the run can be extended in neither
direction. -/
def isMaxRun (bs : List Bool) (s e : Nat) : Prop :=
  s ≤ e ∧ e < bs.length ∧
  (∀ k, k ≤ e → s ≤ k → bs.getD k false = true) ∧
  (s = 0 ∨ bs.getD (s - 1) false = false) ∧
  (e = bs.length - 1 ∨ bs.getD (e + 1) false = false)

instance (bs : List Bool) (s e : Nat) : Decidable (isMaxRun bs s e) := by
  unfold isMaxRun; infer_instance

/-- The signed amplitude difference of the consecutive valid-sample pair
ending at index `j` (`tocData[j][cbl] − tocData[j-1][cbl]`). -/
def gradAt (cbl : String) (tocData : List Rec) (j : Nat) : ℚ :=
  ampQ cbl (tocData.getD j default) - ampQ cbl (tocData.getD (j - 1) default)

/-! ## Concrete inputs for witnesses and counterexamples -/

/-- A file declaring a negative STEP after the last colon of its line. -/
def w5input : String := "~W
STEP x : -3.5
~C
DEPT.M : depth
~A
7
"

/-- The parse of `w5input`. -/
def w5parsed : LasData :=
  { wellName := "Pozo Desconocido", step := JNum.num (7/2), curves := ["DEPT"],
    data := [⟨[("DEPT", JNum.num 7)], none⟩], depthCurveName := "DEPT" }

/-- A file with no STEP line and two records at depths 1 and 3. -/
def f5input : String := "~C
DEPT.M : depth
~A
1
3
"

/-- The records of `f5input`. -/
def f5rec0 : Rec := ⟨[("DEPT", JNum.num 1)], none⟩

/-- The records of `f5input`. -/
def f5rec1 : Rec := ⟨[("DEPT", JNum.num 3)], none⟩

/-- The parse of `f5input`. -/
def f5parsed : LasData :=
  { wellName := "Pozo Desconocido", step := JNum.num 2, curves := ["DEPT"],
    data := [f5rec0, f5rec1], depthCurveName := "DEPT" }

/-- A file with no STEP line and a single record. -/
def s5input : String := "~C
DEPT.M : depth
~A
5
"

/-- The parse of `s5input`. -/
def s5parsed : LasData :=
  { wellName := "Pozo Desconocido", step := JNum.num 0.1524, curves := ["DEPT"],
    data := [⟨[("DEPT", JNum.num 5)], none⟩], depthCurveName := "DEPT" }

/-- A file with no STEP line whose first two records share the depth 1. -/
def c9input : String := "~C
DEPT.M : depth
~A
1.0
1.0
"

/-- A dataset with a single record of depth 50 and amplitude 5. -/
def las1c : LasData :=
  { wellName := "W", step := JNum.num 1, curves := ["DEPT", "CBL"],
    data := [⟨[("DEPT", JNum.num 50), ("CBL", JNum.num 5)], none⟩], depthCurveName := "DEPT" }

/-- A dataset with a single record of depth 1 and no amplitude entry. -/
def las2c : LasData :=
  { wellName := "W", step := JNum.num 1, curves := ["DEPT", "CBL"],
    data := [⟨[("DEPT", JNum.num 1)], none⟩], depthCurveName := "DEPT" }

/-- A dataset with a single record at depth 5, amplitude 5. -/
def las7w : LasData :=
  { wellName := "W", step := JNum.num 1, curves := ["DEPT", "CBL"],
    data := [⟨[("DEPT", JNum.num 5), ("CBL", JNum.num 5)], none⟩], depthCurveName := "DEPT" }

/-- A degenerate layer with `base = top = 5`. -/
def capa7 : LayerData := ⟨"L", 5, 5⟩

/-- Records giving a `Bueno` run (depths 1–4) and then a `Malo` run of
length 1 (depths 5–6) under `defaultConsts`. -/
def las6w : LasData :=
  { wellName := "W", step := JNum.num 1, curves := ["DEPT", "CBL"],
    data := [⟨[("DEPT", JNum.num 1), ("CBL", JNum.num 1)], none⟩,
             ⟨[("DEPT", JNum.num 4), ("CBL", JNum.num 1)], none⟩,
             ⟨[("DEPT", JNum.num 5), ("CBL", JNum.num 20)], none⟩,
             ⟨[("DEPT", JNum.num 6), ("CBL", JNum.num 20)], none⟩],
    depthCurveName := "DEPT" }

/-- Sorted records with an isolated below-threshold sample at depth 1 and a
qualifying below-threshold run over depths 3–6 (under `defaultConsts`). -/
def recs4run : List Rec :=
  [⟨[("DEPT", JNum.num 1), ("CBL", JNum.num 1)], none⟩,
   ⟨[("DEPT", JNum.num 2), ("CBL", JNum.num 20)], none⟩,
   ⟨[("DEPT", JNum.num 3), ("CBL", JNum.num 1)], none⟩,
   ⟨[("DEPT", JNum.num 6), ("CBL", JNum.num 1)], none⟩,
   ⟨[("DEPT", JNum.num 7), ("CBL", JNum.num 20)], none⟩]

/-- Sorted records with no qualifying run; the largest negative amplitude
step is −10, from depth 1 to depth 2 (under `defaultConsts`). -/
def recs4grad : List Rec :=
  [⟨[("DEPT", JNum.num 1), ("CBL", JNum.num 30)], none⟩,
   ⟨[("DEPT", JNum.num 2), ("CBL", JNum.num 20)], none⟩,
   ⟨[("DEPT", JNum.num 3), ("CBL", JNum.num 25)], none⟩]

/-- A sorted record with no valid amplitude sample. -/
def recs4none : List Rec := [⟨[("DEPT", JNum.num 1)], none⟩]

/-- A dataset with a NaN-amplitude record at depth 1, an amplitude-less
record at depth 2 and a plain record at depth 3. -/
def las10w : LasData :=
  { wellName := "W", step := JNum.num 1, curves := ["DEPT", "CBL"],
    data := [⟨[("DEPT", JNum.num 1), ("CBL", JNum.nan)], none⟩,
             ⟨[("DEPT", JNum.num 2)], none⟩,
             ⟨[("DEPT", JNum.num 3), ("CBL", JNum.num 4)], none⟩],
    depthCurveName := "DEPT" }

instance : Inhabited Kpi :=
  ⟨{ TOC_Encontrado := 0, Total_Meters := JNum.nan, Good_Meters := JNum.nan,
     Medium_Meters := JNum.nan, Bad_Meters := JNum.nan, Good_Bond_Percentage := JNum.nan,
     TOC_Solicitado := 0, Altura_Anillo_Solicitado := 0 }⟩

instance : Inhabited AnalysisResult :=
  ⟨{ wellName := "", kpis := default, cementedData := [], logData := [], cblCurve := "",
     intervals := [], layerAnalysis := [], depthCurveName := "", step := JNum.nan }⟩

/-- The analysis result for `las1c` (requested TOC 20, annulus height 30). -/
def c1res : AnalysisResult :=
  ((analyzeData defaultConsts las1c [] 20 30).toOption).getD default

/-- The analysis result and post-call caller records for `las2c`. -/
def c3res : AnalysisResult × List Rec :=
  ((analyzeCore defaultConsts las2c [] 0 0).toOption).getD default

/-- The analysis result for `las6w`. -/
def c6res : AnalysisResult :=
  ((analyzeData defaultConsts las6w [] 0 0).toOption).getD default

/-! # Helper lemmas -/

theorem foldlDedup_length_le (xs : List String) :
    ∀ acc : List String,
      acc.length ≤ (xs.foldl (fun acc c => if acc.contains c then acc else acc ++ [c]) acc).length := by
  induction xs with
  | nil => intro acc; exact Nat.le_refl _
  | cons x l ih =>
    intro acc
    rw [List.foldl_cons]
    by_cases h : acc.contains x = true
    · rw [if_pos h]; exact ih acc
    · rw [if_neg h]
      refine Nat.le_trans ?_ (ih (acc ++ [x]))
      simp

theorem dedupFirst_ne_nil {l : List String} (h : l ≠ []) : dedupFirst l ≠ [] := by
  cases l with
  | nil => exact absurd rfl h
  | cons x xs =>
    unfold dedupFirst
    simp only [List.foldl_cons]
    have h0 : (([] : List String).contains x) = false := rfl
    rw [h0]
    simp only [Bool.false_eq_true, if_false, List.nil_append]
    intro hnil
    have hlen := foldlDedup_length_le xs [x]
    rw [hnil] at hlen
    simp at hlen

theorem jnum_abs_abs (x : JNum) : x.abs.abs = x.abs := by
  cases x with
  | nan => rfl
  | num q => simp [JNum.abs, abs_abs]

theorem jnum_abs_nonnegOrNaN (x : JNum) : x.abs.nonnegOrNaN := by
  cases x with
  | nan => trivial
  | num q => exact abs_nonneg q

/-! # Claim theorems -/

/-- C8: the parser fails with the FormatError (its descriptive message) if
and only if the single pass produced no curves or no data records; on
success the returned dataset has at least one curve and at least one
record. -/
theorem c8_format_error (txt : String) :
    ((∃ msg, parseLasFile txt = Except.error msg) ↔
      ((parsePass (splitLines txt)).curves = [] ∨ (parsePass (splitLines txt)).data = [])) ∧
    (∀ r, parseLasFile txt = Except.ok r → r.curves ≠ [] ∧ r.data ≠ []) := by
  unfold parseLasFile
  by_cases h : (parsePass (splitLines txt)).curves = [] ∨ (parsePass (splitLines txt)).data = []
  · rw [if_pos h]
    exact ⟨⟨fun _ => h, fun _ => ⟨_, rfl⟩⟩, fun r hr => by cases hr⟩
  · rw [if_neg h]
    push_neg at h
    refine ⟨⟨?_, fun hc => absurd hc (by push_neg; exact h)⟩, ?_⟩
    · rintro ⟨msg, hmsg⟩; cases hmsg
    · intro r hr
      injection hr with hr'
      rw [← hr']
      exact ⟨dedupFirst_ne_nil h.1, h.2⟩

/-- C8 witness: on a file with curves and data the parser succeeds with a
nonempty curve list and record list; on the empty file it fails, and its
pass state indeed has no curves. -/
theorem c8_format_error_witness :
    (w5parsed.curves ≠ [] ∧ w5parsed.data ≠ []) ∧
    ((parsePass (splitLines "")).curves = [] ∨ (parsePass (splitLines "")).data = []) := by
  constructor
  · exact (c8_format_error w5input).2 w5parsed (by rfl)
  · exact ((c8_format_error "").1).1 ⟨_, by rfl⟩

/-- C5: for every accepted input, (1) if the pass found an explicit STEP
value in section W the parsed step is its absolute value regardless of
sign; (2) if no STEP was found and at least two records exist, the parsed
step is the absolute difference of the first two records' depth values;
(3) if no STEP was found and fewer than two records exist, the parsed step
is the constant 0.1524. -/
theorem c5_step_determination (txt : String) (r : LasData)
    (hok : parseLasFile txt = Except.ok r) :
    (∀ v, (parsePass (splitLines txt)).step = some v → r.step = v.abs) ∧
    (∀ d0 d1 rest, (parsePass (splitLines txt)).step = none →
       (parsePass (splitLines txt)).data = d0 :: d1 :: rest →
       ∀ a b, d0.get r.depthCurveName = some a → d1.get r.depthCurveName = some b →
         r.step = (JNum.sub b a).abs) ∧
    ((parsePass (splitLines txt)).step = none →
       (parsePass (splitLines txt)).data.length < 2 → r.step = JNum.num 0.1524) := by
  unfold parseLasFile at hok
  by_cases h : (parsePass (splitLines txt)).curves = [] ∨ (parsePass (splitLines txt)).data = []
  · rw [if_pos h] at hok; cases hok
  · rw [if_neg h] at hok
    injection hok with hok'
    subst hok'
    refine ⟨?_, ?_, ?_⟩
    · intro v hv
      show stepOf (parsePass (splitLines txt)) = v.abs
      unfold stepOf stepBeforeAbs
      rw [hv]
    · intro d0 d1 rest hnone hdata a b ha hb
      show stepOf (parsePass (splitLines txt)) = (JNum.sub b a).abs
      unfold stepOf stepBeforeAbs
      rw [hnone, hdata]
      simp only
      rw [show ∀ st : PassState, LasData.depthCurveName
            { wellName := st.wellName, step := stepOf st, curves := dedupFirst st.curves,
              data := st.data, depthCurveName := depthCurveOf st } = depthCurveOf st from fun _ => rfl] at ha hb
      rw [ha, hb]
      exact jnum_abs_abs _
    · intro hnone hlen
      show stepOf (parsePass (splitLines txt)) = JNum.num 0.1524
      unfold stepOf stepBeforeAbs
      rw [hnone]
      match hd : (parsePass (splitLines txt)).data with
      | [] => norm_num [JNum.abs]
      | [d0] => norm_num [JNum.abs]
      | d0 :: d1 :: rest =>
        rw [hd] at hlen
        simp only [List.length_cons] at hlen
        omega

/-- C5 witness: the three step-determination cases at concrete files: a
declared `STEP` of −3.5 yields 3.5; no STEP with leading depths 1 and 3
yields 2; no STEP with a single record yields 0.1524. -/
theorem c5_step_determination_witness :
    (w5parsed.step = (JNum.num (-(7/2))).abs) ∧
    (f5parsed.step = (JNum.sub (JNum.num 3) (JNum.num 1)).abs) ∧
    (s5parsed.step = JNum.num 0.1524) := by
  refine ⟨?_, ?_, ?_⟩
  · exact (c5_step_determination w5input w5parsed (by rfl)).1 (JNum.num (-(7/2))) (by rfl)
  · exact (c5_step_determination f5input f5parsed (by rfl)).2.1 f5rec0 f5rec1 [] (by rfl) (by rfl)
      (JNum.num 1) (JNum.num 3) (by rfl) (by rfl)
  · exact (c5_step_determination s5input s5parsed (by rfl)).2.2 (by rfl) (by decide)

/-- C9 counterexample: a successfully parsed file whose sample step is 0,
hence not a positive float: no STEP is declared and the first two records
share the depth 1. -/
theorem c9_counterexample :
    (parseLasFile c9input).map (fun d => d.step) = Except.ok (JNum.num 0) ∧
    ¬ (JNum.num 0).isPos := by
  constructor
  · rfl
  · simp [JNum.isPos]

/-- C9 (amended): for every successfully parsed input the sample step is
the absolute value of the determined value, hence a nonnegative number or
NaN; strict positivity can fail (declared STEP 0 or `-`/`.`, or equal or
NaN leading depths). -/
theorem c9_step_nonneg (txt : String) (r : LasData)
    (hok : parseLasFile txt = Except.ok r) : r.step.nonnegOrNaN := by
  unfold parseLasFile at hok
  by_cases h : (parsePass (splitLines txt)).curves = [] ∨ (parsePass (splitLines txt)).data = []
  · rw [if_pos h] at hok; cases hok
  · rw [if_neg h] at hok
    injection hok with hok'
    rw [← hok']
    exact jnum_abs_nonnegOrNaN _

/-- C9 witness: the step of a parsed concrete file is nonnegative. -/
theorem c9_step_nonneg_witness : w5parsed.step.nonnegOrNaN :=
  c9_step_nonneg w5input w5parsed (by rfl)

theorem analyzeCore_ok (consts : Consts) (las : LasData) (layers : List LayerData)
    (ts alt : ℚ) (p : AnalysisResult × List Rec) :
    analyzeCore consts las layers ts alt = Except.ok p ↔
    ∃ cbl, consts.NOMBRES_CURVA_CBL.find? (fun c => las.curves.contains c) = some cbl ∧
      las.data.enum.filter (fun q => validRecord las.depthCurveName cbl q.2) ≠ [] ∧
      p = buildResult consts las layers ts alt cbl
            (las.data.enum.filter (fun q => validRecord las.depthCurveName cbl q.2)) := by
  unfold analyzeCore
  cases hfind : consts.NOMBRES_CURVA_CBL.find? (fun c => las.curves.contains c) with
  | none =>
    constructor
    · intro h; cases h
    · rintro ⟨cbl', hc, -, -⟩; cases hc
  | some cbl =>
    dsimp only
    by_cases hf : las.data.enum.filter (fun q => validRecord las.depthCurveName cbl q.2) = []
    · rw [if_pos hf]
      constructor
      · intro h; cases h
      · rintro ⟨cbl', hc, hne, -⟩
        injection hc with hc'
        subst hc'
        exact absurd hf hne
    · rw [if_neg hf]
      constructor
      · intro h
        injection h with h'
        exact ⟨cbl, rfl, hf, h'.symm⟩
      · rintro ⟨cbl', hc, -, hp⟩
        injection hc with hc'
        subst hc'
        rw [hp]

theorem analyzeData_ok (consts : Consts) (las : LasData) (layers : List LayerData)
    (ts alt : ℚ) (r : AnalysisResult) :
    analyzeData consts las layers ts alt = Except.ok r ↔
    ∃ cbl, consts.NOMBRES_CURVA_CBL.find? (fun c => las.curves.contains c) = some cbl ∧
      las.data.enum.filter (fun q => validRecord las.depthCurveName cbl q.2) ≠ [] ∧
      r = (buildResult consts las layers ts alt cbl
            (las.data.enum.filter (fun q => validRecord las.depthCurveName cbl q.2))).1 := by
  unfold analyzeData
  constructor
  · intro h
    cases hcore : analyzeCore consts las layers ts alt with
    | error e => rw [hcore] at h; cases h
    | ok p =>
      rw [hcore] at h
      injection h with h'
      obtain ⟨cbl, h1, h2, h3⟩ := (analyzeCore_ok consts las layers ts alt p).mp hcore
      exact ⟨cbl, h1, h2, by rw [← h', h3]⟩
  · rintro ⟨cbl, h1, h2, h3⟩
    have hc : analyzeCore consts las layers ts alt =
        Except.ok (buildResult consts las layers ts alt cbl
          (las.data.enum.filter (fun q => validRecord las.depthCurveName cbl q.2))) :=
      (analyzeCore_ok consts las layers ts alt _).mpr ⟨cbl, h1, h2, rfl⟩
    rw [hc, h3]
    rfl

theorem computeKpis_T (step : JNum) (toc : ℚ) (cem : List Rec) (ts alt : ℚ)
    (hts : 0 < ts) (halt : 0 < alt) :
    (computeKpis step toc cem ts alt).TOC_Encontrado = toc ∧
    (computeKpis step toc cem ts alt).Diferencia_TOC = some (toc - ts) ∧
    (((-40:ℚ) ≤ toc - ts ∧ toc - ts ≤ 0) →
      (computeKpis step toc cem ts alt).TOC_Evaluacion_T = some 100) ∧
    (toc - ts < -40 → (computeKpis step toc cem ts alt).TOC_Evaluacion_T = some 90) ∧
    ((0 < toc - ts ∧ toc - ts ≤ 40) →
      (computeKpis step toc cem ts alt).TOC_Evaluacion_T = some 80) ∧
    (40 < toc - ts → (computeKpis step toc cem ts alt).TOC_Evaluacion_T = some 0) := by
  simp only [computeKpis]
  rw [if_pos ⟨hts, halt⟩]
  refine ⟨rfl, rfl, ?_, ?_, ?_, ?_⟩
  · rintro ⟨h1, h2⟩
    have hc : 0 ≤ ts - toc ∧ ts - toc ≤ 40 := ⟨by linarith, by linarith⟩
    simp only [if_pos hc]
    norm_num
  · intro h
    have hc1 : ¬ (0 ≤ ts - toc ∧ ts - toc ≤ 40) := by
      rintro ⟨-, h2⟩; linarith
    have hc2 : 40 < ts - toc := by linarith
    simp only [if_neg hc1, if_pos hc2]
    norm_num
  · rintro ⟨h1, h2⟩
    have hc1 : ¬ (0 ≤ ts - toc ∧ ts - toc ≤ 40) := by
      rintro ⟨h3, -⟩; linarith
    have hc2 : ¬ (40 < ts - toc) := by linarith
    have hc3 : ts - toc < 0 ∧ (-40:ℚ) ≤ ts - toc := ⟨by linarith, by linarith⟩
    simp only [if_neg hc1, if_neg hc2, if_pos hc3]
    norm_num
  · intro h
    have hc1 : ¬ (0 ≤ ts - toc ∧ ts - toc ≤ 40) := by
      rintro ⟨h3, -⟩; linarith
    have hc2 : ¬ (40 < ts - toc) := by linarith
    have hc3 : ¬ (ts - toc < 0 ∧ (-40:ℚ) ≤ ts - toc) := by
      rintro ⟨-, h4⟩; linarith
    have hc4 : ts - toc < -40 := by linarith
    simp only [if_neg hc1, if_neg hc2, if_neg hc3, if_pos hc4]
    norm_num

/-- C1 counterexample: a run with found TOC 50 and requested TOC 20 (annulus
height 30) reports the TOC-difference KPI 30 ∈ [0, 40], yet the T evaluation
is 80 (T = 0.8), not the 100 (T = 1.0) that the claim's mapping demands for
a difference in [0, 40]. -/
theorem c1_counterexample :
    (analyzeData defaultConsts las1c [] 20 30).map
        (fun r => (r.kpis.Diferencia_TOC, r.kpis.TOC_Evaluacion_T)) =
      Except.ok (some 30, some 80) ∧
    ((0:ℚ) ≤ 30 ∧ (30:ℚ) ≤ 40) ∧ some (80:ℚ) ≠ some (100:ℚ) := by
  refine ⟨by rfl, ⟨by norm_num, by norm_num⟩, by norm_num⟩

/-- C1 (amended): when both requested values are positive, the reported
TOC-difference KPI equals found TOC minus requested TOC, but the T score is
computed from the negated difference (requested − found): T = 1.0 (reported
as 100) when the difference lies in [−40, 0], 0.9 when it is below −40,
0.8 when it lies in (0, 40], and 0.0 when it exceeds 40. -/
theorem c1_toc_difference_and_T (consts : Consts) (las : LasData) (layers : List LayerData)
    (ts alt : ℚ) (r : AnalysisResult) (hts : 0 < ts) (halt : 0 < alt)
    (hok : analyzeData consts las layers ts alt = Except.ok r) :
    r.kpis.Diferencia_TOC = some (r.kpis.TOC_Encontrado - ts) ∧
    (((-40:ℚ) ≤ r.kpis.TOC_Encontrado - ts ∧ r.kpis.TOC_Encontrado - ts ≤ 0) →
       r.kpis.TOC_Evaluacion_T = some 100) ∧
    (r.kpis.TOC_Encontrado - ts < -40 → r.kpis.TOC_Evaluacion_T = some 90) ∧
    ((0 < r.kpis.TOC_Encontrado - ts ∧ r.kpis.TOC_Encontrado - ts ≤ 40) →
       r.kpis.TOC_Evaluacion_T = some 80) ∧
    (40 < r.kpis.TOC_Encontrado - ts → r.kpis.TOC_Evaluacion_T = some 0) := by
  obtain ⟨cbl, hfind, hne, hr⟩ := (analyzeData_ok consts las layers ts alt r).mp hok
  subst hr
  have hk : ∃ toc cem,
      ((buildResult consts las layers ts alt cbl
          (las.data.enum.filter (fun q => validRecord las.depthCurveName cbl q.2))).1).kpis.TOC_Encontrado =
        (computeKpis las.step toc cem ts alt).TOC_Encontrado ∧
      ((buildResult consts las layers ts alt cbl
          (las.data.enum.filter (fun q => validRecord las.depthCurveName cbl q.2))).1).kpis.Diferencia_TOC =
        (computeKpis las.step toc cem ts alt).Diferencia_TOC ∧
      ((buildResult consts las layers ts alt cbl
          (las.data.enum.filter (fun q => validRecord las.depthCurveName cbl q.2))).1).kpis.TOC_Evaluacion_T =
        (computeKpis las.step toc cem ts alt).TOC_Evaluacion_T := by
    simp only [buildResult]
    split
    · exact ⟨_, _, rfl, rfl, rfl⟩
    · exact ⟨_, _, rfl, rfl, rfl⟩
  obtain ⟨toc, cem, h1, h2, h3⟩ := hk
  have hT := computeKpis_T las.step toc cem ts alt hts halt
  rw [h1, h2, h3, hT.1]
  exact ⟨hT.2.1, hT.2.2.1, hT.2.2.2.1, hT.2.2.2.2.1, hT.2.2.2.2.2⟩

/-- C1 witness: at the concrete run of `c1_counterexample` the amended
mapping holds — the difference 30 ∈ (0, 40] gives a T evaluation of 80. -/
theorem c1_toc_difference_and_T_witness :
    c1res.kpis.Diferencia_TOC = some (c1res.kpis.TOC_Encontrado - 20) ∧
    c1res.kpis.TOC_Evaluacion_T = some 80 := by
  have h := c1_toc_difference_and_T defaultConsts las1c [] 20 30 c1res
    (by norm_num) (by norm_num) (by rfl)
  exact ⟨h.1, h.2.2.2.1 ⟨by decide, by decide⟩⟩

/-- C10: given the chosen amplitude curve, the strict initial filter keeps
every positive-depth record with no amplitude entry, removes every record
whose amplitude is NaN (NaN fails the `>= 0` test), every survivor has a
non-NaN amplitude (so NaN-amplitude records never reach TOC detection,
interpolation or classification, which consume only survivors), and the
NoValidDataError is raised exactly when no record survives. -/
theorem c10_strict_filter (consts : Consts) (las : LasData) (layers : List LayerData)
    (ts alt : ℚ) (cbl : String)
    (hfind : consts.NOMBRES_CURVA_CBL.find? (fun c => las.curves.contains c) = some cbl) :
    (∀ d : Rec, jgtQ (d.get las.depthCurveName) 0 = true → d.get cbl = none →
       validRecord las.depthCurveName cbl d = true) ∧
    (∀ d : Rec, d.get cbl = some JNum.nan → validRecord las.depthCurveName cbl d = false) ∧
    (∀ d : Rec, validRecord las.depthCurveName cbl d = true → d.get cbl ≠ some JNum.nan) ∧
    (analyzeData consts las layers ts alt =
        Except.error "No valid data found (Depth > 0 and Amplitude >= 0)." ↔
      las.data.enum.filter (fun p => validRecord las.depthCurveName cbl p.2) = []) := by
  have h2 : ∀ d : Rec, d.get cbl = some JNum.nan → validRecord las.depthCurveName cbl d = false := by
    intro d hd
    simp [validRecord, hd, jgeQ, jnumOf, JNum.geQ]
  refine ⟨?_, h2, ?_, ?_⟩
  · intro d h1 hnone
    simp [validRecord, h1, hnone]
  · intro d hv hnan
    rw [h2 d hnan] at hv
    cases hv
  · unfold analyzeData analyzeCore
    rw [hfind]
    dsimp only
    by_cases hf : las.data.enum.filter (fun p => validRecord las.depthCurveName cbl p.2) = []
    · rw [if_pos hf]
      simp [Except.map, hf]
    · rw [if_neg hf]
      simp [Except.map, hf]

/-- C10 witness: at the concrete dataset `las10w`: the amplitude-less
record of depth 2 is kept, the NaN-amplitude record of depth 1 is removed,
and (records surviving) the NoValidDataError is not raised. -/
theorem c10_strict_filter_witness :
    validRecord "DEPT" "CBL" ⟨[("DEPT", JNum.num 2)], none⟩ = true ∧
    validRecord "DEPT" "CBL" ⟨[("DEPT", JNum.num 1), ("CBL", JNum.nan)], none⟩ = false ∧
    analyzeData defaultConsts las10w [] 0 0 ≠
      Except.error "No valid data found (Depth > 0 and Amplitude >= 0)." := by
  have H := c10_strict_filter defaultConsts las10w [] 0 0 "CBL" (by rfl)
  refine ⟨H.1 _ (by rfl) (by rfl), H.2.1 _ (by rfl), ?_⟩
  intro hc
  exact absurd ((H.2.2.2).mp hc) (by decide)

theorem computeKpis_Good_Meters (step : JNum) (toc : ℚ) (cem : List Rec) (ts alt : ℚ) :
    (computeKpis step toc cem ts alt).Good_Meters =
      JNum.mul (JNum.num (((cem.filter (fun d => d.category = some Cat.Bueno)).length : ℚ))) step := by
  simp only [computeKpis]
  split <;> rfl

/-- C2 counterexample: a cemented record with no usable amplitude value at
all (its amplitude entry is absent) receives the category `Bueno` through
the classifier's catch-all else branch and is counted in the good-meters
KPI, instead of receiving no category and being excluded. -/
theorem c2_counterexample :
    (analyzeData defaultConsts las2c [] 0 0).map
        (fun r => (r.cementedData.map (fun d => (d.get "CBL", d.category)), r.kpis.Good_Meters)) =
      Except.ok ([((none : JVal), some Cat.Bueno)], JNum.num 1) ∧
    some Cat.Bueno ≠ (none : Option Cat) := by
  exact ⟨by rfl, by simp⟩

/-- C2 (amended): with low threshold < high threshold, every cemented
record with numeric amplitude is classified `Malo` when amplitude ≥ high
threshold, `Medio` when strictly between the thresholds, `Bueno` when
≤ low threshold; and every record *without* a usable amplitude value also
receives a category, namely `Bueno`, and is therefore counted by the
good-meters KPI (Good_Meters multiplies the `Bueno` count by the step). -/
theorem c2_classifier (consts : Consts) (las : LasData) (layers : List LayerData)
    (ts alt : ℚ) (r : AnalysisResult)
    (hlow : consts.UMBRAL_AMPLITUD_BUENA_MV < consts.UMBRAL_AMPLITUD_MALA_MV)
    (hok : analyzeData consts las layers ts alt = Except.ok r) :
    (∀ d ∈ r.cementedData,
      (∀ q : ℚ, d.get r.cblCurve = some (JNum.num q) →
        ((consts.UMBRAL_AMPLITUD_MALA_MV ≤ q → d.category = some Cat.Malo) ∧
         ((consts.UMBRAL_AMPLITUD_BUENA_MV < q ∧ q < consts.UMBRAL_AMPLITUD_MALA_MV) →
            d.category = some Cat.Medio) ∧
         (q ≤ consts.UMBRAL_AMPLITUD_BUENA_MV → d.category = some Cat.Bueno))) ∧
      (jsValid (d.get r.cblCurve) = false → d.category = some Cat.Bueno)) ∧
    r.kpis.Good_Meters =
      JNum.mul (JNum.num (((r.cementedData.filter (fun d => d.category = some Cat.Bueno)).length : ℚ)))
        las.step := by
  obtain ⟨cbl, hfind, hne, hr⟩ := (analyzeData_ok consts las layers ts alt r).mp hok
  subst hr
  constructor
  · have hcd : ∃ xs,
        ((buildResult consts las layers ts alt cbl
            (las.data.enum.filter (fun q => validRecord las.depthCurveName cbl q.2))).1).cementedData =
          categorizeList consts cbl xs ∧
        ((buildResult consts las layers ts alt cbl
            (las.data.enum.filter (fun q => validRecord las.depthCurveName cbl q.2))).1).cblCurve = cbl := by
      simp only [buildResult]
      exact ⟨_, rfl, trivial⟩
    obtain ⟨xs, hxs, hcbl⟩ := hcd
    rw [hxs, hcbl]
    intro d hd
    rw [categorizeList, List.mem_map] at hd
    obtain ⟨x, -, hx⟩ := hd
    subst hx
    constructor
    · intro q hq
      have hget : x.get cbl = some (JNum.num q) := hq
      refine ⟨?_, ?_, ?_⟩
      · intro hge
        simp [classify, jgeQ, jnumOf, JNum.geQ, hget, hge]
      · rintro ⟨hgt, hlt⟩
        have h1 : ¬ (consts.UMBRAL_AMPLITUD_MALA_MV ≤ q) := by linarith
        simp [classify, jgeQ, jgtQ, jltQ, jnumOf, JNum.geQ, JNum.gtQ, JNum.ltQ, hget, h1, hgt, hlt]
      · intro hle
        have h1 : ¬ (consts.UMBRAL_AMPLITUD_MALA_MV ≤ q) := by linarith
        have h2 : ¬ (consts.UMBRAL_AMPLITUD_BUENA_MV < q) := by linarith
        simp [classify, jgeQ, jgtQ, jltQ, jnumOf, JNum.geQ, JNum.gtQ, JNum.ltQ, hget, h1, h2]
    · intro hinval
      have hinval' : jsValid (x.get cbl) = false := hinval
      have hg : x.get cbl = none ∨ x.get cbl = some JNum.nan := by
        cases hx : x.get cbl with
        | none => exact Or.inl rfl
        | some v =>
          cases v with
          | nan => exact Or.inr rfl
          | num q => rw [hx] at hinval'; cases hinval'
      rcases hg with hg | hg <;>
        simp [classify, jgeQ, jgtQ, jltQ, jnumOf, JNum.geQ, JNum.gtQ, JNum.ltQ, hg]
  · have hk : ∃ toc,
        ((buildResult consts las layers ts alt cbl
            (las.data.enum.filter (fun q => validRecord las.depthCurveName cbl q.2))).1).kpis.Good_Meters =
          (computeKpis las.step toc
            ((buildResult consts las layers ts alt cbl
              (las.data.enum.filter (fun q => validRecord las.depthCurveName cbl q.2))).1).cementedData
            ts alt).Good_Meters := by
      simp only [buildResult]
      split
      · exact ⟨_, rfl⟩
      · exact ⟨_, rfl⟩
    obtain ⟨toc, hgm⟩ := hk
    rw [hgm, computeKpis_Good_Meters]

/-- C2 witness: at the concrete run of `c1res` the amplitude 5 lies
strictly between the default thresholds 2 and 10 and the record is
classified `Medio`; the good-meters KPI equals the `Bueno` count times the
step. -/
theorem c2_classifier_witness :
    (⟨[("DEPT", JNum.num 50), ("CBL", JNum.num 5)], some Cat.Medio⟩ : Rec).category = some Cat.Medio ∧
    c1res.kpis.Good_Meters =
      JNum.mul (JNum.num (((c1res.cementedData.filter (fun d => d.category = some Cat.Bueno)).length : ℚ)))
        las1c.step := by
  have H := c2_classifier defaultConsts las1c [] 20 30 c1res (by decide) (by rfl)
  exact ⟨((H.1 _ (by decide)).1 5 (by rfl)).2.1 ⟨by decide, by decide⟩, H.2⟩

/-- C6: every interval in the reported quality-interval list has category
`Malo` or `Medio`, its length equals base − top, and its length is at least
the minimum-length constant converted from feet at the fixed 0.3048
factor — so short same-category runs and `Bueno` runs of any length never
appear. -/
theorem c6_interval_filter (consts : Consts) (las : LasData) (layers : List LayerData)
    (ts alt : ℚ) (r : AnalysisResult)
    (hok : analyzeData consts las layers ts alt = Except.ok r) :
    ∀ itv ∈ r.intervals,
      (itv.Calidad = some Cat.Malo ∨ itv.Calidad = some Cat.Medio) ∧
      itv.longitud = itv.base - itv.tope ∧
      consts.INTERVALO_LONGITUD_MINIMA_FT * 0.3048 ≤ itv.longitud := by
  obtain ⟨cbl, hfind, hne, hr⟩ := (analyzeData_ok consts las layers ts alt r).mp hok
  subst hr
  have hi : ∃ cem,
      ((buildResult consts las layers ts alt cbl
          (las.data.enum.filter (fun q => validRecord las.depthCurveName cbl q.2))).1).intervals =
        qualityIntervals consts las.depthCurveName cem := by
    simp only [buildResult]
    exact ⟨_, rfl⟩
  obtain ⟨cem, hcem⟩ := hi
  rw [hcem]
  intro itv hitv
  unfold qualityIntervals at hitv
  rw [List.mem_map] at hitv
  obtain ⟨p, hp, hpe⟩ := hitv
  rw [List.mem_filter] at hp
  obtain ⟨hpm, hcond⟩ := hp
  rw [List.mem_map] at hpm
  obtain ⟨i, -, hip⟩ := hpm
  simp only [decide_eq_true_eq] at hcond
  subst hpe
  subst hip
  exact ⟨hcond.2, rfl, hcond.1⟩

/-- C6 witness: the single reported interval of the `las6w` run — the
`Malo` run from depth 5 to depth 6 — has category `Malo`, length
base − top = 1, and length at least 3 ft × 0.3048 = 0.9144. -/
theorem c6_interval_filter_witness :
    (((⟨some Cat.Malo, 5, 6, 1⟩ : QualityInterval).Calidad = some Cat.Malo ∨
      (⟨some Cat.Malo, 5, 6, 1⟩ : QualityInterval).Calidad = some Cat.Medio)) ∧
    (⟨some Cat.Malo, 5, 6, 1⟩ : QualityInterval).longitud =
      (⟨some Cat.Malo, 5, 6, 1⟩ : QualityInterval).base -
        (⟨some Cat.Malo, 5, 6, 1⟩ : QualityInterval).tope ∧
    defaultConsts.INTERVALO_LONGITUD_MINIMA_FT * 0.3048 ≤
      (⟨some Cat.Malo, 5, 6, 1⟩ : QualityInterval).longitud :=
  c6_interval_filter defaultConsts las6w [] 0 0 c6res (by rfl)
    ⟨some Cat.Malo, 5, 6, 1⟩ (by decide)

/-- C7 counterexample: a layer with base = top = 5 over a cemented record
at exactly depth 5 has a *nonempty* window: the reported layer row has
length 1 (not 0) and adhesion 0 (not NaN), and the layer contributes to the
Apnz aggregate (Apnz is defined, 0%, rather than undefined). -/
theorem c7_counterexample :
    (analyzeData defaultConsts las7w [capa7] 0 0).map
        (fun r => (r.layerAnalysis.map (fun i => (i.longitud, i.adherencia)), r.kpis.Apnz_Percentage)) =
      Except.ok ([(JNum.num 1, JNum.num 0)], some 0) ∧
    capa7.base ≤ capa7.top ∧
    JNum.num 1 ≠ JNum.num 0 ∧ (JNum.num 0).isNaN = false ∧ some (0:ℚ) ≠ (none : Option ℚ) := by
  exact ⟨by rfl, by decide, by decide, by decide, by decide⟩

/-- C7 (amended): a layer whose [top, base] window holds zero cemented
records yields adhesion NaN and window length 0, its layer-analysis row
reports length 0 and NaN adhesion, and it contributes nothing to the Apnz
sums (numerator or denominator); a seal window with zero records likewise
contributes nothing to the Asello sums; and base < top (strictly) always
forces the empty window.  (With base = top the window can contain a record
at exactly that depth — see `c7_counterexample`.) -/
theorem c7_empty_window (consts : Consts) (dc : String) (step : JNum) (cem : List Rec)
    (minD maxD : ℚ) (capa : LayerData) (wn : String) (st : AggState) :
    (capa.base < capa.top → capaWindow dc cem capa.top capa.base = []) ∧
    (capaWindow dc cem capa.top capa.base = [] →
      calcularAdherenciaIntervalo dc step (capaWindow dc cem capa.top capa.base) =
        (JNum.nan, JNum.num 0) ∧
      (layerItem consts dc step wn cem minD maxD capa).longitud = JNum.num 0 ∧
      (layerItem consts dc step wn cem minD maxD capa).adherencia = JNum.nan ∧
      (aggFoldStep consts dc step cem minD maxD st capa).total_M_capas = st.total_M_capas ∧
      (aggFoldStep consts dc step cem minD maxD st capa).total_length_capas = st.total_length_capas) ∧
    (capaWindow dc cem (sealBounds consts minD maxD capa).1 (sealBounds consts minD maxD capa).2 = [] →
      (aggFoldStep consts dc step cem minD maxD st capa).total_M_sellos = st.total_M_sellos ∧
      (aggFoldStep consts dc step cem minD maxD st capa).total_length_sellos = st.total_length_sellos) := by
  refine ⟨?_, ?_, ?_⟩
  · intro hlt
    rw [capaWindow, List.filter_eq_nil_iff]
    intro d hd
    cases hg : d.get dc with
    | none => simp [jgeQ, jnumOf, JNum.geQ, hg]
    | some v =>
      cases v with
      | nan => simp [jgeQ, jnumOf, JNum.geQ, hg]
      | num q =>
        simp only [jgeQ, jleQ, jnumOf, JNum.geQ, JNum.leQ, hg, Bool.and_eq_true,
          decide_eq_true_eq, not_and]
        intro h1 h2
        linarith
  · intro hwin
    rw [hwin]
    refine ⟨rfl, ?_, ?_, ?_, ?_⟩ <;>
      simp [layerItem, aggFoldStep, hwin, calcularAdherenciaIntervalo, adhAccum, JNum.isNaN]
  · intro hseal
    simp only [sealBounds] at hseal
    constructor <;>
      simp [aggFoldStep, sealBounds, hseal, calcularAdherenciaIntervalo, adhAccum]

/-- C7 witness: a layer with base 6 < top 7 over a one-record cemented zone
has an empty window, a zero-length layer row, and leaves the Apnz numerator
unchanged. -/
theorem c7_empty_window_witness :
    capaWindow "DEPT" [⟨[("DEPT", JNum.num 5)], some Cat.Medio⟩] (7:ℚ) (6:ℚ) = [] ∧
    (layerItem defaultConsts "DEPT" (JNum.num 1) "W"
      [⟨[("DEPT", JNum.num 5)], some Cat.Medio⟩] 5 5 ⟨"L", 7, 6⟩).longitud = JNum.num 0 ∧
    (aggFoldStep defaultConsts "DEPT" (JNum.num 1)
      [⟨[("DEPT", JNum.num 5)], some Cat.Medio⟩] 5 5 ⟨1, 2, 3, 4⟩ ⟨"L", 7, 6⟩).total_M_capas = 1 := by
  have H := c7_empty_window defaultConsts "DEPT" (JNum.num 1)
    [⟨[("DEPT", JNum.num 5)], some Cat.Medio⟩] 5 5 ⟨"L", 7, 6⟩ "W" ⟨1, 2, 3, 4⟩
  have hw : capaWindow "DEPT" [⟨[("DEPT", JNum.num 5)], some Cat.Medio⟩] (7:ℚ) (6:ℚ) = [] :=
    H.1 (by norm_num)
  exact ⟨hw, (H.2.1 hw).2.1, (H.2.1 hw).2.2.2.1⟩

theorem updAt_length (arr : List Rec) (i : Nat) (f : Rec → Rec) :
    (updAt arr i f).length = arr.length := by
  simp [updAt]

theorem foldl_updAt_length (lg : Nat) (F : Nat → Rec → Rec) :
    ∀ (l : List Nat) (arr : List Rec),
      (l.foldl (fun a j => updAt a (lg + j) (F j)) arr).length = arr.length := by
  intro l
  induction l with
  | nil => intro arr; rfl
  | cons j t ih => intro arr; rw [List.foldl_cons, ih, updAt_length]

theorem interpGap_length (arr : List Rec) (key : String) (lg i : Nat) :
    (interpGap arr key lg i).length = arr.length := by
  simp only [interpGap]
  exact foldl_updAt_length lg _ _ arr

theorem interpolateKey_length (data : List Rec) (key : String) :
    (interpolateKey data key).length = data.length := by
  unfold interpolateKey
  have hgen : ∀ (l : List Nat) (st : Option Nat × List Rec),
      ((l.foldl (fun (st : Option Nat × List Rec) i =>
        if jsValid ((st.2.getD i default).get key) then
          match st.1 with
          | some lg => if 1 < i - lg then (some i, interpGap st.2 key lg i) else (some i, st.2)
          | none => (some i, st.2)
        else st) st)).2.length = st.2.length := by
    intro l
    induction l with
    | nil => intro st; rfl
    | cons j t ih =>
      intro st
      rw [List.foldl_cons, ih]
      cases hv : jsValid ((st.2.getD j default).get key) with
      | false => simp [hv]
      | true =>
        cases hlg : st.1 with
        | none => simp [hv, hlg]
        | some lg =>
          by_cases h2 : 1 < j - lg
          · simp [hv, hlg, h2, interpGap_length]
          · simp [hv, hlg, h2]
  exact hgen _ _

theorem interpolateAll_length (cbl : String) (curves : List String) (recs : List Rec) :
    (interpolateAll cbl curves recs).length = recs.length := by
  unfold interpolateAll
  have hgen : ∀ (keys : List String) (rs : List Rec),
      (keys.foldl (fun acc key => if curves.contains key then interpolateKey acc key else acc) rs).length
        = rs.length := by
    intro keys
    induction keys with
    | nil => intro rs; rfl
    | cons k t ih =>
      intro rs
      rw [List.foldl_cons, ih]
      by_cases h : curves.contains k = true
      · rw [if_pos h, interpolateKey_length]
      · rw [if_neg h]
  exact hgen _ _

theorem categorizeList_length (consts : Consts) (cbl : String) (recs : List Rec) :
    (categorizeList consts cbl recs).length = recs.length := by
  simp [categorizeList]

theorem categorizeList_mem_category {consts : Consts} {cbl : String} {recs : List Rec} {d : Rec}
    (hd : d ∈ categorizeList consts cbl recs) : d.category.isSome = true := by
  rw [categorizeList, List.mem_map] at hd
  obtain ⟨x, -, hx⟩ := hd
  subst hx
  rfl

theorem applyMut_store_props (data : List Rec) (idxs : List Nat) (proc : List Rec)
    (hlen : idxs.length = proc.length) (hnodup : idxs.Nodup)
    (hbound : ∀ i ∈ idxs, i < data.length)
    (hcat : ∀ d ∈ proc, d.category.isSome = true) :
    ((applyMut (idxs.zip proc) data.enum).map Prod.snd).length = data.length ∧
    (∀ i, i < data.length →
       ((applyMut (idxs.zip proc) data.enum).map Prod.snd).getD i default = data.getD i default ∨
       (((applyMut (idxs.zip proc) data.enum).map Prod.snd).getD i default).category.isSome = true) ∧
    (∀ d ∈ proc, d ∈ (applyMut (idxs.zip proc) data.enum).map Prod.snd) := by
  have hzl : (idxs.zip proc).length = idxs.length := by
    rw [List.length_zip, hlen, Nat.min_self]
  have hSlen : ((applyMut (idxs.zip proc) data.enum).map Prod.snd).length = data.length := by
    simp [applyMut, List.enum_length]
  have hstep : ∀ i (hi : i < data.length)
      (hi3 : i < ((applyMut (idxs.zip proc) data.enum).map Prod.snd).length),
      ((applyMut (idxs.zip proc) data.enum).map Prod.snd)[i] =
        (match (idxs.zip proc).find? (fun p => p.1 == i) with
         | some p => p.2
         | none => data[i]) := by
    intro i hi hi3
    have hi2 : i < (applyMut (idxs.zip proc) data.enum).length := by
      simp [applyMut, List.enum_length, hi]
    rw [List.getElem_map]
    unfold applyMut
    rw [List.getElem_map]
    have he : i < data.enum.length := by rw [List.enum_length]; exact hi
    rw [List.getElem_enum]
    cases hf : (idxs.zip proc).find? (fun p => p.1 == i) with
    | none => simp [hf]
    | some p => simp [hf]
  refine ⟨hSlen, ?_, ?_⟩
  · intro i hi
    rw [List.getD_eq_getElem _ _ (by rw [hSlen]; exact hi), List.getD_eq_getElem _ _ hi,
      hstep i hi (by rw [hSlen]; exact hi)]
    cases hf : (idxs.zip proc).find? (fun p => p.1 == i) with
    | none => left; rfl
    | some p =>
      right
      obtain ⟨a, b⟩ := p
      exact hcat b ((List.of_mem_zip (List.mem_of_find?_eq_some hf)).2)
  · intro d hd
    obtain ⟨k, hk, hdk⟩ := List.getElem_of_mem hd
    have hki : k < idxs.length := by rw [hlen]; exact hk
    have hkz : k < (idxs.zip proc).length := by rw [hzl]; exact hki
    have hzk : (idxs.zip proc)[k] = (idxs[k], proc[k]) := List.getElem_zip
    have hzmem : (idxs[k], d) ∈ idxs.zip proc := by
      rw [← hdk, ← hzk]
      exact List.getElem_mem hkz
    have hfs : ((idxs.zip proc).find? (fun p => p.1 == idxs[k])).isSome = true :=
      List.find?_isSome.mpr ⟨(idxs[k], d), hzmem, by simp⟩
    obtain ⟨q, hq⟩ := Option.isSome_iff_exists.mp hfs
    have hq1 : q.1 = idxs[k] := by simpa using List.find?_some hq
    obtain ⟨j, hj, hjq⟩ := List.getElem_of_mem (List.mem_of_find?_eq_some hq)
    have hji : j < idxs.length := by rw [hzl] at hj; exact hj
    have hjz : (idxs.zip proc)[j] = (idxs[j], proc[j]) := List.getElem_zip
    have hjk : j = k := by
      have hidx : idxs[j] = idxs[k] := by
        rw [hjz] at hjq
        rw [← hjq] at hq1
        exact hq1
      exact (List.Nodup.getElem_inj_iff hnodup).mp hidx
    have hq2 : q.2 = d := by
      rw [hjz] at hjq
      rw [← hjq]
      subst hjk
      rw [hdk]
    have hib : idxs[k] < data.length := hbound _ (List.getElem_mem hki)
    rw [List.mem_iff_getElem]
    refine ⟨idxs[k], by rw [hSlen]; exact hib, ?_⟩
    rw [hstep _ hib (by rw [hSlen]; exact hib), hq]
    exact hq2

/-- C3 counterexample: after a call on a dataset with a single categorizable
record, the caller's record array holds a record with a `Category` property
— it is not unchanged: the pipeline's `filter` calls copy the array but not
the record objects, so `cementedData.forEach(d => d.Category = ...)`
mutates the record inside `lasData.data` in place. -/
theorem c3_counterexample :
    analyzeCallerData defaultConsts las2c [] 0 0 =
      Except.ok [⟨[("DEPT", JNum.num 1)], some Cat.Bueno⟩] ∧
    ([⟨[("DEPT", JNum.num 1)], some Cat.Bueno⟩] : List Rec) ≠ las2c.data := by
  constructor
  · rfl
  · intro h
    have : some Cat.Bueno = (none : Option Cat) := congrArg (fun l => (l.headD default).category) h
    cases this

/-- C3 (amended): `analyzeData` mutates the caller's records in place
through shared references.  After the call the caller's array has the same
length; every position either still holds the original record or holds a
record that has received a `Category` (the cemented records, which are also
interpolated); and the annotated records returned in `cementedData` *are*
exact instances living in the caller's array. -/
theorem c3_caller_mutation (consts : Consts) (las : LasData) (layers : List LayerData)
    (ts alt : ℚ) (res : AnalysisResult) (store : List Rec)
    (hok : analyzeCore consts las layers ts alt = Except.ok (res, store)) :
    store.length = las.data.length ∧
    (∀ i, i < las.data.length →
       store.getD i default = las.data.getD i default ∨
       (store.getD i default).category.isSome = true) ∧
    (∀ d ∈ res.cementedData, d ∈ store) := by
  obtain ⟨cbl, hfind, hne, hpair⟩ :=
    (analyzeCore_ok consts las layers ts alt (res, store)).mp hok
  have hres : res = (buildResult consts las layers ts alt cbl
      (las.data.enum.filter (fun q => validRecord las.depthCurveName cbl q.2))).1 := by
    rw [← hpair]
  have hstore : store = (buildResult consts las layers ts alt cbl
      (las.data.enum.filter (fun q => validRecord las.depthCurveName cbl q.2))).2 := by
    rw [← hpair]
  simp only [buildResult] at hres hstore
  set lp := las.data.enum.filter (fun q => validRecord las.depthCurveName cbl q.2) with hlp
  set sorted := List.insertionSort
    (fun a b : Nat × Rec => depthQ las.depthCurveName a.2 ≤ depthQ las.depthCurveName b.2) lp
    with hsorted
  set toc := detectTOC consts las.depthCurveName cbl (sorted.map Prod.snd) with htoc
  set cemented := sorted.filter (fun p => jgeQ (p.2.get las.depthCurveName) toc) with hcem
  set proc := categorizeList consts cbl
    (interpolateAll cbl las.curves (cemented.map Prod.snd)) with hproc
  set idxs := cemented.map Prod.fst with hidxs
  have hlen : idxs.length = proc.length := by
    rw [hidxs, hproc, categorizeList_length, interpolateAll_length]
    simp
  have hlpnodup : (lp.map Prod.fst).Nodup := by
    rw [hlp]
    refine (List.Sublist.map Prod.fst (List.filter_sublist _)).nodup ?_
    rw [List.enum_map_fst]
    exact List.nodup_range _
  have hperm : sorted.Perm lp := by
    rw [hsorted]
    exact List.perm_insertionSort _ _
  have hsortednodup : (sorted.map Prod.fst).Nodup :=
    ((hperm.map Prod.fst).nodup_iff).mpr hlpnodup
  have hnodup : idxs.Nodup := by
    rw [hidxs, hcem]
    exact (List.Sublist.map Prod.fst (List.filter_sublist _)).nodup hsortednodup
  have hbound : ∀ i ∈ idxs, i < las.data.length := by
    intro i hi
    rw [hidxs] at hi
    have h3 : i ∈ sorted.map Prod.fst :=
      (List.Sublist.map Prod.fst (by rw [hcem]; exact List.filter_sublist _)).subset hi
    have h4 : i ∈ lp.map Prod.fst := (hperm.map Prod.fst).subset h3
    have h5 : i ∈ las.data.enum.map Prod.fst := by
      rw [hlp] at h4
      exact (List.Sublist.map Prod.fst (List.filter_sublist _)).subset h4
    rw [List.enum_map_fst, List.mem_range] at h5
    exact h5
  have hcat : ∀ d ∈ proc, d.category.isSome = true := by
    intro d hd
    rw [hproc] at hd
    exact categorizeList_mem_category hd
  have H := applyMut_store_props las.data idxs proc hlen hnodup hbound hcat
  rw [hstore]
  refine ⟨H.1, H.2.1, ?_⟩
  intro d hd
  refine H.2.2 d ?_
  rw [hres] at hd
  exact hd

/-- C3 witness: at the concrete run of `c3_counterexample`, the caller's
array keeps its length, position 0 has received a category, and the
returned cemented record is an instance inside the caller's array. -/
theorem c3_caller_mutation_witness :
    c3res.2.length = las2c.data.length ∧
    (c3res.2.getD 0 default = las2c.data.getD 0 default ∨
      (c3res.2.getD 0 default).category.isSome = true) ∧
    (⟨[("DEPT", JNum.num 1)], some Cat.Bueno⟩ : Rec) ∈ c3res.2 := by
  have H := c3_caller_mutation defaultConsts las2c [] 0 0 c3res.1 c3res.2 (by rfl)
  exact ⟨H.1, H.2.1 0 (by decide), H.2.2 _ (by decide)⟩

theorem isMaxRun_end_unique {bs : List Bool} {s e e' : Nat}
    (h : isMaxRun bs s e) (h' : isMaxRun bs s e') : e = e' := by
  by_contra hne
  wlog hlt : e < e' generalizing e e'
  · exact this h' h (Ne.symm hne) (by omega)
  obtain ⟨hse, hel, hall, hpre, hsuf⟩ := h
  obtain ⟨hse', hel', hall', hpre', hsuf'⟩ := h'
  have h1 : bs.getD (e + 1) false = false := by
    rcases hsuf with h | h
    · omega
    · exact h
  have h2 : bs.getD (e + 1) false = true := hall' (e + 1) (by omega) (by omega)
  rw [h1] at h2
  cases h2

theorem blocksAux_mem (bs : List Bool) :
    ∀ (sfx : List Bool) (i : Nat) (cur : Option Nat),
      bs.drop i = sfx →
      (cur = none → i = 0 ∨ bs.getD (i - 1) false = false) →
      (∀ c, cur = some c →
        c < i ∧ (∀ k, c ≤ k → k < i → bs.getD k false = true) ∧
        (c = 0 ∨ bs.getD (c - 1) false = false)) →
      ∀ s e, ((s, e) ∈ blocksAux i sfx cur ↔
        (isMaxRun bs s e ∧
          (cur = none → i ≤ s) ∧ (∀ c, cur = some c → s = c ∨ i ≤ s))) := by
  intro sfx
  induction sfx with
  | nil =>
    intro i cur hdrop hnone hsome s e
    have hlen : bs.length ≤ i := List.drop_eq_nil_iff.mp hdrop
    cases cur with
    | none =>
      simp only [blocksAux, List.not_mem_nil, false_iff]
      rintro ⟨⟨hse, hel, -⟩, hn, -⟩
      have := hn (by trivial)
      omega
    | some c =>
      obtain ⟨hci, hall, hpre⟩ := hsome c rfl
      have hb : bs.getD (i - 1) false = true := hall (i - 1) (by omega) (by omega)
      have hlt : i - 1 < bs.length := by
        by_contra hcon
        push_neg at hcon
        rw [List.getD_eq_default _ _ hcon] at hb
        cases hb
      have hrun : isMaxRun bs c (i - 1) := by
        refine ⟨by omega, hlt, ?_, hpre, Or.inl (by omega)⟩
        intro k h1 h2
        exact hall k h2 (by omega)
      simp only [blocksAux, List.mem_singleton, Prod.mk.injEq]
      constructor
      · rintro ⟨rfl, rfl⟩
        exact ⟨hrun, fun h => absurd h (by simp), fun c' hc' => Or.inl (by injection hc')⟩
      · rintro ⟨hM, -, hsc⟩
        rcases hsc c rfl with rfl | hges
        · exact ⟨rfl, isMaxRun_end_unique hM hrun⟩
        · obtain ⟨hse, hel, -⟩ := hM
          omega
  | cons b rest ih =>
    intro i cur hdrop hnone hsome s e
    have hilt : i < bs.length := by
      have hne : bs.drop i ≠ [] := by rw [hdrop]; simp
      rw [ne_eq, List.drop_eq_nil_iff] at hne
      omega
    have hbi : bs.getD i false = b := by
      have h1 : (bs.drop i).head? = some b := by rw [hdrop]; rfl
      rw [List.head?_drop] at h1
      rw [List.getD_eq_getElem?_getD, h1]
      rfl
    have hdrop1 : bs.drop (i + 1) = rest := by
      have hh : (bs.drop i).drop 1 = rest := by rw [hdrop]; rfl
      rwa [List.drop_drop] at hh
    cases cur with
    | none =>
      cases b with
      | true =>
        have hinv : ∀ c, some i = some c →
            c < i + 1 ∧ (∀ k, c ≤ k → k < i + 1 → bs.getD k false = true) ∧
            (c = 0 ∨ bs.getD (c - 1) false = false) := by
          intro c hc
          injection hc with hc'
          subst hc'
          refine ⟨by omega, ?_, hnone rfl⟩
          intro k h1 h2
          have hk : k = i := by omega
          subst hk
          exact hbi
        have hred : blocksAux i (true :: rest) none = blocksAux (i + 1) rest (some i) := by
          simp [blocksAux]
        rw [hred, ih (i + 1) (some i) hdrop1 (fun h => nomatch h) hinv s e]
        constructor
        · rintro ⟨hM, -, hsc⟩
          rcases hsc i rfl with heq | hge
          · subst heq
            exact ⟨hM, ⟨fun _ => Nat.le_refl _, (fun c hc => nomatch hc)⟩⟩
          · exact ⟨hM, ⟨fun _ => by omega, (fun c hc => nomatch hc)⟩⟩
        · rintro ⟨hM, hn, -⟩
          have hi := hn rfl
          refine ⟨hM, ⟨(fun h => nomatch h), ?_⟩⟩
          intro c hc
          injection hc with hc'
          subst hc'
          omega
      | false =>
        have hred : blocksAux i (false :: rest) none = blocksAux (i + 1) rest none := by
          simp [blocksAux]
        rw [hred, ih (i + 1) none hdrop1 (fun _ => Or.inr hbi) (fun c hc => nomatch hc) s e]
        constructor
        · rintro ⟨hM, hn, -⟩
          have := hn rfl
          exact ⟨hM, ⟨fun _ => by omega, (fun c hc => nomatch hc)⟩⟩
        · rintro ⟨hM, hn, -⟩
          have hi := hn rfl
          refine ⟨hM, ⟨fun _ => ?_, (fun c hc => nomatch hc)⟩⟩
          have hs : bs.getD s false = true := hM.2.2.1 s hM.1 (Nat.le_refl s)
          by_contra hcon
          have heq : s = i := by omega
          rw [heq, hbi] at hs
          cases hs
    | some c =>
      obtain ⟨hci, hall, hpre⟩ := hsome c rfl
      cases b with
      | true =>
        have hinv : ∀ c', some c = some c' →
            c' < i + 1 ∧ (∀ k, c' ≤ k → k < i + 1 → bs.getD k false = true) ∧
            (c' = 0 ∨ bs.getD (c' - 1) false = false) := by
          intro c' hc'
          injection hc' with h'
          subst h'
          refine ⟨by omega, ?_, hpre⟩
          intro k h1 h2
          rcases Nat.lt_or_ge k i with hk | hk
          · exact hall k h1 hk
          · have hk2 : k = i := by omega
            subst hk2
            exact hbi
        have hred : blocksAux i (true :: rest) (some c) = blocksAux (i + 1) rest (some c) := by
          simp [blocksAux]
        rw [hred, ih (i + 1) (some c) hdrop1 (fun h => nomatch h) hinv s e]
        constructor
        · rintro ⟨hM, -, hsc⟩
          refine ⟨hM, ⟨(fun h => nomatch h), ?_⟩⟩
          intro c' hc'
          injection hc' with h'
          subst h'
          rcases hsc c rfl with heq | hge
          · exact Or.inl heq
          · exact Or.inr (by omega)
        · rintro ⟨hM, -, hsc⟩
          refine ⟨hM, ⟨(fun h => nomatch h), ?_⟩⟩
          intro c' hc'
          injection hc' with h'
          subst h'
          rcases hsc c rfl with heq | hge
          · exact Or.inl heq
          · right
            rcases Nat.eq_or_lt_of_le hge with heq2 | hlt2
            · exfalso
              have hsi : s = i := heq2.symm
              rcases hM.2.2.2.1 with h0 | hpref
              · omega
              · have hrunb : bs.getD (s - 1) false = true := by
                  have hh := hall (i - 1) (by omega) (by omega)
                  have : s - 1 = i - 1 := by omega
                  rw [this]
                  exact hh
                rw [hpref] at hrunb
                cases hrunb
            · omega
      | false =>
        have hrun : isMaxRun bs c (i - 1) := by
          refine ⟨by omega, by omega, ?_, hpre, ?_⟩
          · intro k h1 h2
            exact hall k h2 (by omega)
          · right
            have h2 : i - 1 + 1 = i := by omega
            rw [h2]
            exact hbi
        have hred : blocksAux i (false :: rest) (some c) =
            (c, i - 1) :: blocksAux (i + 1) rest none := by
          simp [blocksAux]
        rw [hred]
        simp only [List.mem_cons, Prod.mk.injEq]
        rw [ih (i + 1) none hdrop1 (fun _ => Or.inr hbi) (fun c' hc' => nomatch hc') s e]
        constructor
        · rintro (⟨h1, h2⟩ | ⟨hM, hn, -⟩)
          · subst h1
            subst h2
            refine ⟨hrun, ⟨(fun h => nomatch h), ?_⟩⟩
            intro c' hc'
            injection hc' with h'
            exact Or.inl h'
          · have hi := hn rfl
            exact ⟨hM, ⟨(fun h => nomatch h), fun c' hc' => Or.inr (by omega)⟩⟩
        · rintro ⟨hM, -, hsc⟩
          rcases hsc c rfl with heq | hge
          · left
            refine ⟨heq, ?_⟩
            subst heq
            exact isMaxRun_end_unique hM hrun
          · right
            refine ⟨hM, ⟨fun _ => ?_, (fun c' hc' => nomatch hc')⟩⟩
            have hs : bs.getD s false = true := hM.2.2.1 s hM.1 (Nat.le_refl s)
            by_contra hcon
            have heq : s = i := by omega
            rw [heq, hbi] at hs
            cases hs

theorem blocksAux_starts_ge :
    ∀ (sfx : List Bool) (i : Nat) (cur : Option Nat) (lb : Nat),
      (∀ c, cur = some c → lb ≤ c) → lb ≤ i →
      ∀ p ∈ blocksAux i sfx cur, lb ≤ p.1 := by
  intro sfx
  induction sfx with
  | nil =>
    intro i cur lb hc hi p hp
    cases cur with
    | none => cases hp
    | some c =>
      simp only [blocksAux, List.mem_singleton] at hp
      subst hp
      exact hc c rfl
  | cons b rest ih =>
    intro i cur lb hc hi p hp
    cases cur with
    | none =>
      cases b with
      | true =>
        rw [show blocksAux i (true :: rest) none = blocksAux (i + 1) rest (some i) from by
          simp [blocksAux]] at hp
        exact ih (i + 1) (some i) lb (fun c hcc => by injection hcc with h; omega) (by omega) p hp
      | false =>
        rw [show blocksAux i (false :: rest) none = blocksAux (i + 1) rest none from by
          simp [blocksAux]] at hp
        exact ih (i + 1) none lb (fun c hcc => nomatch hcc) (by omega) p hp
    | some c =>
      cases b with
      | true =>
        rw [show blocksAux i (true :: rest) (some c) = blocksAux (i + 1) rest (some c) from by
          simp [blocksAux]] at hp
        exact ih (i + 1) (some c) lb hc (by omega) p hp
      | false =>
        rw [show blocksAux i (false :: rest) (some c) =
            (c, i - 1) :: blocksAux (i + 1) rest none from by simp [blocksAux],
          List.mem_cons] at hp
        rcases hp with hp | hp
        · subst hp
          exact hc c rfl
        · exact ih (i + 1) none lb (fun c' hcc => nomatch hcc) (by omega) p hp

theorem blocksAux_pairwise :
    ∀ (sfx : List Bool) (i : Nat) (cur : Option Nat),
      (∀ c, cur = some c → c < i) →
      (blocksAux i sfx cur).Pairwise (fun p q => p.1 < q.1) := by
  intro sfx
  induction sfx with
  | nil =>
    intro i cur hc
    cases cur with
    | none => exact List.Pairwise.nil
    | some c => simp [blocksAux]
  | cons b rest ih =>
    intro i cur hc
    cases cur with
    | none =>
      cases b with
      | true =>
        rw [show blocksAux i (true :: rest) none = blocksAux (i + 1) rest (some i) from by
          simp [blocksAux]]
        exact ih (i + 1) (some i) (fun c hcc => by injection hcc with h; omega)
      | false =>
        rw [show blocksAux i (false :: rest) none = blocksAux (i + 1) rest none from by
          simp [blocksAux]]
        exact ih (i + 1) none (fun c hcc => nomatch hcc)
    | some c =>
      cases b with
      | true =>
        rw [show blocksAux i (true :: rest) (some c) = blocksAux (i + 1) rest (some c) from by
          simp [blocksAux]]
        exact ih (i + 1) (some c) (fun c' hcc => by have := hc c' hcc; omega)
      | false =>
        rw [show blocksAux i (false :: rest) (some c) =
            (c, i - 1) :: blocksAux (i + 1) rest none from by simp [blocksAux]]
        refine List.Pairwise.cons ?_ (ih (i + 1) none (fun c' hcc => nomatch hcc))
        intro q hq
        have hge := blocksAux_starts_ge rest (i + 1) none (i + 1)
          (fun c' hcc => nomatch hcc) (Nat.le_refl _) q hq
        have hci := hc c rfl
        show c < q.1
        omega

theorem minGradIdx_foldl (amps : List ℚ) :
    ∀ (l : List Nat) (m : ℚ) (k : Nat),
      amps.getD k 0 - amps.getD (k - 1) 0 = m →
      ∃ j, (l.foldl (fun (st : Option ℚ × Option Nat) i =>
          let g := amps.getD i 0 - amps.getD (i - 1) 0
          match st.1 with
          | none => (some g, some i)
          | some mm => if g < mm then (some g, some i) else st) (some m, some k))
        = (some (amps.getD j 0 - amps.getD (j - 1) 0), some j) ∧
        (j = k ∨ j ∈ l) ∧
        amps.getD j 0 - amps.getD (j - 1) 0 ≤ m ∧
        (∀ x ∈ l, amps.getD j 0 - amps.getD (j - 1) 0 ≤ amps.getD x 0 - amps.getD (x - 1) 0) := by
  intro l
  induction l with
  | nil =>
    intro m k hm
    refine ⟨k, ?_, Or.inl rfl, le_of_eq hm, fun x hx => absurd hx (List.not_mem_nil x)⟩
    rw [List.foldl_nil, hm]
  | cons x t ih =>
    intro m k hm
    rw [List.foldl_cons]
    dsimp only
    by_cases hlt : amps.getD x 0 - amps.getD (x - 1) 0 < m
    · rw [if_pos hlt]
      obtain ⟨j, hfold, hmem, hle, hmin⟩ := ih (amps.getD x 0 - amps.getD (x - 1) 0) x rfl
      refine ⟨j, hfold, ?_, ?_, ?_⟩
      · rcases hmem with h | h
        · exact Or.inr (by rw [h]; exact List.mem_cons_self x t)
        · exact Or.inr (List.mem_cons_of_mem x h)
      · linarith
      · intro y hy
        rcases List.mem_cons.mp hy with rfl | hyt
        · exact hle
        · exact hmin y hyt
    · rw [if_neg hlt]
      obtain ⟨j, hfold, hmem, hle, hmin⟩ := ih m k hm
      refine ⟨j, hfold, ?_, hle, ?_⟩
      · rcases hmem with h | h
        · exact Or.inl h
        · exact Or.inr (List.mem_cons_of_mem x h)
      · intro y hy
        rcases List.mem_cons.mp hy with rfl | hyt
        · have := not_lt.mp hlt
          linarith
        · exact hmin y hyt

theorem minGradIdx_spec (amps : List ℚ) (h2 : 2 ≤ amps.length) :
    ∃ j, minGradIdx amps = some j ∧ 1 ≤ j ∧ j < amps.length ∧
      ∀ x, 1 ≤ x → x < amps.length →
        amps.getD j 0 - amps.getD (j - 1) 0 ≤ amps.getD x 0 - amps.getD (x - 1) 0 := by
  unfold minGradIdx
  have hr : List.range' 1 (amps.length - 1) = 1 :: List.range' 2 (amps.length - 2) := by
    have h3 : amps.length - 1 = (amps.length - 2) + 1 := by omega
    rw [h3, List.range'_succ]
  rw [hr, List.foldl_cons]
  dsimp only
  obtain ⟨j, hfold, hmem, hle, hmin⟩ :=
    minGradIdx_foldl amps (List.range' 2 (amps.length - 2))
      (amps.getD 1 0 - amps.getD (1 - 1) 0) 1 rfl
  rw [hfold]
  refine ⟨j, rfl, ?_, ?_, ?_⟩
  · rcases hmem with rfl | h
    · exact Nat.le_refl 1
    · have := List.mem_range'_1.mp h
      omega
  · rcases hmem with rfl | h
    · omega
    · have := List.mem_range'_1.mp h
      omega
  · intro x h1 hx
    rcases Nat.eq_or_lt_of_le h1 with heq | hgt
    · rw [← heq]
      exact hle
    · exact hmin x (List.mem_range'_1.mpr ⟨hgt, by omega⟩)

theorem findBlocks_mem (bs : List Bool) (s e : Nat) :
    (s, e) ∈ findBlocks bs ↔ isMaxRun bs s e := by
  rw [findBlocks,
    blocksAux_mem bs bs 0 none rfl (fun _ => Or.inl rfl) (fun c hc => nomatch hc) s e]
  constructor
  · rintro ⟨hM, -, -⟩
    exact hM
  · intro hM
    exact ⟨hM, fun _ => Nat.zero_le s, fun c hc => nomatch hc⟩

theorem findBlocks_pairwise (bs : List Bool) :
    (findBlocks bs).Pairwise (fun p q => p.1 < q.1) :=
  blocksAux_pairwise bs 0 none (fun _ hc => nomatch hc)

/-- C4: over a depth-sorted record sequence, (a) when some maximal
below-threshold run has depth span at least the minimum run length, the
detected TOC is the depth at the start of the first (least-start) such run,
even if earlier isolated below-threshold samples exist; (b) when no run
qualifies and at least two valid samples exist, the TOC is the depth of the
second sample of a consecutive valid-sample pair whose signed amplitude
difference is minimal; (c) with zero valid amplitude samples the TOC is the
shallowest sample's depth. -/
theorem c4_toc_detection (consts : Consts) (dc cbl : String) (recs : List Rec)
    (hsorted : List.Sorted (fun a b => depthQ dc a ≤ depthQ dc b) recs) :
    (∀ s e, isMaxRun (meetsOf consts cbl recs) s e →
       consts.TOC_LONGITUD_MINIMA_M ≤ blockSpan dc cbl recs (s, e) →
       (∀ s' e', s' < (meetsOf consts cbl recs).length → e' < (meetsOf consts cbl recs).length →
          isMaxRun (meetsOf consts cbl recs) s' e' →
          consts.TOC_LONGITUD_MINIMA_M ≤ blockSpan dc cbl recs (s', e') → s ≤ s') →
       detectTOC consts dc cbl recs = depthQ dc ((tocDataOf cbl recs).getD s default)) ∧
    ((∀ s e, s < (meetsOf consts cbl recs).length → e < (meetsOf consts cbl recs).length →
        isMaxRun (meetsOf consts cbl recs) s e →
        ¬ consts.TOC_LONGITUD_MINIMA_M ≤ blockSpan dc cbl recs (s, e)) →
      2 ≤ (tocDataOf cbl recs).length →
      ∃ i, 1 ≤ i ∧ i < (tocDataOf cbl recs).length ∧
        detectTOC consts dc cbl recs = depthQ dc ((tocDataOf cbl recs).getD i default) ∧
        ∀ x, 1 ≤ x → x < (tocDataOf cbl recs).length →
          gradAt cbl (tocDataOf cbl recs) i ≤ gradAt cbl (tocDataOf cbl recs) x) ∧
    (tocDataOf cbl recs = [] →
      ∀ d0 rest, recs = d0 :: rest →
        detectTOC consts dc cbl recs = depthQ dc d0 ∧
        ∀ d ∈ recs, depthQ dc d0 ≤ depthQ dc d) := by
  refine ⟨?_, ?_, ?_⟩
  · intro s e hM hsp hmin
    have hlenme : (meetsOf consts cbl recs).length = (tocDataOf cbl recs).length := by
      rw [meetsOf, List.length_map]
    have hne : tocDataOf cbl recs ≠ [] := by
      intro h0
      have he := hM.2.1
      rw [hlenme, h0] at he
      simp at he
    have hmem : (s, e) ∈ findBlocks (meetsOf consts cbl recs) :=
      (findBlocks_mem _ s e).mpr hM
    have hfil : (s, e) ∈ (findBlocks (meetsOf consts cbl recs)).filter
        (fun b => decide (consts.TOC_LONGITUD_MINIMA_M ≤ blockSpan dc cbl recs b)) := by
      rw [List.mem_filter]
      exact ⟨hmem, by simpa using hsp⟩
    simp only [detectTOC]
    rw [if_neg hne]
    cases hv : (findBlocks (meetsOf consts cbl recs)).filter
        (fun b => decide (consts.TOC_LONGITUD_MINIMA_M ≤ blockSpan dc cbl recs b)) with
    | nil =>
      rw [hv] at hfil
      cases hfil
    | cons b tl =>
      have hbfil : b ∈ (findBlocks (meetsOf consts cbl recs)).filter
          (fun b => decide (consts.TOC_LONGITUD_MINIMA_M ≤ blockSpan dc cbl recs b)) := by
        rw [hv]
        exact List.mem_cons_self b tl
      rw [List.mem_filter] at hbfil
      have hbM : isMaxRun (meetsOf consts cbl recs) b.1 b.2 :=
        (findBlocks_mem _ b.1 b.2).mp hbfil.1
      have hbsp : consts.TOC_LONGITUD_MINIMA_M ≤ blockSpan dc cbl recs (b.1, b.2) := by
        have := hbfil.2
        simp only [decide_eq_true_eq] at this
        exact this
      have hs_le : s ≤ b.1 :=
        hmin b.1 b.2 (by have := hbM.1; have := hbM.2.1; omega) hbM.2.1 hbM hbsp
      have hb_le : b.1 ≤ s := by
        have hpw : ((findBlocks (meetsOf consts cbl recs)).filter
            (fun b => decide (consts.TOC_LONGITUD_MINIMA_M ≤ blockSpan dc cbl recs b))).Pairwise
              (fun p q => p.1 < q.1) :=
          (findBlocks_pairwise _).filter _
        rw [hv] at hpw
        rw [hv] at hfil
        rcases List.mem_cons.mp hfil with heq | htl
        · have : b.1 = s := by rw [← heq]
          omega
        · have := (List.pairwise_cons.mp hpw).1 (s, e) htl
          omega
      have hbs : b.1 = s := Nat.le_antisymm hb_le hs_le
      show depthQ dc ((tocDataOf cbl recs).getD b.1 default) =
        depthQ dc ((tocDataOf cbl recs).getD s default)
      rw [hbs]
  · intro hnone h2len
    have hlenme : (meetsOf consts cbl recs).length = (tocDataOf cbl recs).length := by
      rw [meetsOf, List.length_map]
    have hne : tocDataOf cbl recs ≠ [] := by
      intro h0
      rw [h0] at h2len
      simp at h2len
    have hvempty : (findBlocks (meetsOf consts cbl recs)).filter
        (fun b => decide (consts.TOC_LONGITUD_MINIMA_M ≤ blockSpan dc cbl recs b)) = [] := by
      rw [List.filter_eq_nil_iff]
      intro b hb
      have hbM : isMaxRun (meetsOf consts cbl recs) b.1 b.2 :=
        (findBlocks_mem _ b.1 b.2).mp hb
      have h1 := hbM.2.1
      have hsb : b.1 < (meetsOf consts cbl recs).length := by
        have := hbM.1
        omega
      simpa using hnone b.1 b.2 hsb h1 hbM
    simp only [detectTOC]
    rw [if_neg hne, hvempty]
    have hlen : ((tocDataOf cbl recs).map (ampQ cbl)).length = (tocDataOf cbl recs).length :=
      List.length_map _ _
    obtain ⟨j, hj, hj1, hjlt, hjmin⟩ :=
      minGradIdx_spec ((tocDataOf cbl recs).map (ampQ cbl)) (by rw [hlen]; exact h2len)
    rw [hj]
    have hmap : ∀ y, y < (tocDataOf cbl recs).length →
        ((tocDataOf cbl recs).map (ampQ cbl)).getD y 0 =
          ampQ cbl ((tocDataOf cbl recs).getD y default) := by
      intro y hy
      rw [List.getD_eq_getElem _ _ (by rw [hlen]; exact hy), List.getD_eq_getElem _ _ hy,
        List.getElem_map]
    refine ⟨j, hj1, by rw [← hlen]; exact hjlt, rfl, ?_⟩
    intro x h1 hx
    have hx' : x < ((tocDataOf cbl recs).map (ampQ cbl)).length := by rw [hlen]; exact hx
    have := hjmin x h1 hx'
    rw [gradAt, gradAt, ← hmap x hx, ← hmap (x - 1) (by omega),
      ← hmap j (by rw [← hlen]; exact hjlt), ← hmap (j - 1) (by rw [← hlen]; omega)]
    exact this
  · intro htoc d0 rest hrecs
    subst hrecs
    constructor
    · simp only [detectTOC]
      rw [if_pos htoc]
    · intro d hd
      rcases List.mem_cons.mp hd with rfl | hdr
      · exact le_refl _
      · exact (List.sorted_cons.mp hsorted).1 d hdr

/-- Witness for `c4_toc_detection`: all three branches instantiated on
concrete sorted datasets (a qualifying run, a gradient fallback, no valid
amplitude samples). -/
theorem c4_toc_detection_witness :
    (detectTOC defaultConsts "DEPT" "CBL" recs4run =
        depthQ "DEPT" ((tocDataOf "CBL" recs4run).getD 2 default)) ∧
    (∃ i, 1 ≤ i ∧ i < (tocDataOf "CBL" recs4grad).length ∧
      detectTOC defaultConsts "DEPT" "CBL" recs4grad =
        depthQ "DEPT" ((tocDataOf "CBL" recs4grad).getD i default) ∧
      ∀ x, 1 ≤ x → x < (tocDataOf "CBL" recs4grad).length →
        gradAt "CBL" (tocDataOf "CBL" recs4grad) i ≤
          gradAt "CBL" (tocDataOf "CBL" recs4grad) x) ∧
    (detectTOC defaultConsts "DEPT" "CBL" recs4none =
        depthQ "DEPT" (⟨[("DEPT", JNum.num 1)], none⟩ : Rec) ∧
      ∀ d ∈ recs4none,
        depthQ "DEPT" (⟨[("DEPT", JNum.num 1)], none⟩ : Rec) ≤ depthQ "DEPT" d) := by
  refine ⟨?_, ?_, ?_⟩
  · refine (c4_toc_detection defaultConsts "DEPT" "CBL" recs4run (by decide)).1 2 3
      (by decide) (by decide) ?_
    intro s' e' hs' he' hmax hspan
    have h : ∀ s' (_ : s' < (meetsOf defaultConsts "CBL" recs4run).length),
        ∀ e' (_ : e' < (meetsOf defaultConsts "CBL" recs4run).length),
        isMaxRun (meetsOf defaultConsts "CBL" recs4run) s' e' →
        defaultConsts.TOC_LONGITUD_MINIMA_M ≤
          blockSpan "DEPT" "CBL" recs4run (s', e') → 2 ≤ s' := by decide
    exact h s' hs' e' he' hmax hspan
  · refine (c4_toc_detection defaultConsts "DEPT" "CBL" recs4grad (by decide)).2.1
      ?_ (by decide)
    intro s e hs he hmax
    have h : ∀ s (_ : s < (meetsOf defaultConsts "CBL" recs4grad).length),
        ∀ e (_ : e < (meetsOf defaultConsts "CBL" recs4grad).length),
        isMaxRun (meetsOf defaultConsts "CBL" recs4grad) s e →
        ¬ defaultConsts.TOC_LONGITUD_MINIMA_M ≤
          blockSpan "DEPT" "CBL" recs4grad (s, e) := by decide
    exact h s hs e he hmax
  · exact (c4_toc_detection defaultConsts "DEPT" "CBL" recs4none (by decide)).2.2
      (by decide) ⟨[("DEPT", JNum.num 1)], none⟩ [] rfl
